import Mathlib

/-
Verification of the jobsdb storage engine (jobsdb/jobsdb.go).

Shallow embedding conventions:
- SQL tables are Lean lists of rows; `BIGSERIAL` sequences are explicit
  `Int` counters carried in the state (`jobSeq`, `statusSeq`); Postgres
  `nextval` returns counter+1, `setval(seq, v)` sets the counter to `v`.
- Go `int64`/`int` are `Int`; timestamps are `Int` (an abstract clock).
- Go maps are association lists (`alGet`/`alSet`/`alErase`); lookup of a
  missing key is `none` (for `map[...]bool`, the Go zero value `false` is
  recovered with `Option.getD false`, exactly as the source reads it).
- Fatal assertions (`jd.assert`, `jd.assertError`, and Go runtime panics
  such as out-of-range indexing) are modelled as `none` of an `Option`.
- The float comparisons `float64 a / float64 b > 0.8` and `... > 5` in
  checkIfMigrateDS are modelled by the exact rational comparisons
  `5*a > 4*b` and `a > 5*b`; for the integer counts involved the float64
  comparison agrees with the rational one (the literal 0.8 parses to the
  double nearest 4/5, and quotients of counts of this magnitude round to
  a value on the same side of it).
-/

namespace JobsDB

/-- A row of a `<pfx>_jobs_<idx>` table (Go struct JobT without the
LastJobStatus join artifact). -/
structure JobT where
  jobID : Int
  uuid : Nat
  customVal : String
  eventPayload : String
  createdAt : Int
  expireAt : Int
deriving DecidableEq

/-- Go struct JobStatusT: the caller-visible columns of a status row. -/
structure JobStatusT where
  jobID : Int
  jobState : String
  attemptNum : Int
  execTime : Int
  retryTime : Int
  errorCode : String
  errorResponse : String
deriving DecidableEq

/-- A row of a `<pfx>_job_status_<idx>` table: the serial `id` column
plus the JobStatusT columns. -/
structure StatusRow where
  rid : Int
  st : JobStatusT
deriving DecidableEq

/-- Go struct dataSetT: the identity of one shard (table pair). -/
structure dataSetT where
  jobTable : String
  jobStatusTable : String
  index : String
deriving DecidableEq

/-- Go struct dataSetRangeT. -/
structure dataSetRangeT where
  minJobID : Int
  maxJobID : Int
  ds : dataSetT
deriving DecidableEq

/-- The database content of one shard: its two tables and the two
serial sequences backing them. -/
structure DataSet where
  jobs : List JobT
  statusRows : List StatusRow
  jobSeq : Int
  statusSeq : Int
deriving DecidableEq

def emptyDS : DataSet := { jobs := [], statusRows := [], jobSeq := 0, statusSeq := 0 }

/-! Association lists standing for Go maps. -/

def alGet {κ β : Type} [DecidableEq κ] : List (κ × β) → κ → Option β
  | [], _ => none
  | (k1, v1) :: rest, k => if k1 = k then some v1 else alGet rest k

def alSet {κ β : Type} [DecidableEq κ] : List (κ × β) → κ → β → List (κ × β)
  | [], k, v => [(k, v)]
  | (k1, v1) :: rest, k, v =>
    if k1 = k then (k, v) :: rest else (k1, v1) :: alSet rest k v

def alErase {κ β : Type} [DecidableEq κ] : List (κ × β) → κ → List (κ × β)
  | [], _ => []
  | (k1, v1) :: rest, k =>
    if k1 = k then alErase rest k else (k1, v1) :: alErase rest k

theorem alGet_alSet_self {κ β : Type} [DecidableEq κ] (l : List (κ × β)) (k : κ) (v : β) :
    alGet (alSet l k v) k = some v := by
  induction l with
  | nil => simp [alGet, alSet]
  | cons p rest ih =>
    by_cases h : p.1 = k <;> simp [alGet, alSet, h, ih]

theorem alGet_alSet_ne {κ β : Type} [DecidableEq κ] (l : List (κ × β)) (k k2 : κ) (v : β)
    (h : k ≠ k2) : alGet (alSet l k v) k2 = alGet l k2 := by
  induction l with
  | nil => simp [alGet, alSet, h]
  | cons p rest ih =>
    by_cases h1 : p.1 = k
    · subst h1
      have h2 : ¬ p.1 = k2 := fun hh => h hh
      simp [alGet, alSet, h, h2]
    · simp [alGet, alSet, h1, ih]

theorem alGet_alErase {κ β : Type} [DecidableEq κ] (l : List (κ × β)) (k k2 : κ) :
    alGet (alErase l k) k2 = if k = k2 then none else alGet l k2 := by
  induction l with
  | nil => simp [alGet, alErase]
  | cons p rest ih =>
    by_cases h1 : p.1 = k
    · subst h1
      by_cases h2 : p.1 = k2
      · subst h2; simp [alErase, ih]
      · simp [alErase, alGet, h2, ih]
    · by_cases h2 : p.1 = k2
      · subst h2
        have : ¬ k = p.1 := fun hh => h1 hh.symm
        simp [alErase, alGet, h1, this]
      · simp [alErase, alGet, h1, h2, ih]

/-! The validJobStates map and checkValidJobState. -/

def validJobStates : List (String × Bool) :=
  [("NP", false), ("succeeded", true), ("failed", true), ("executing", true),
   ("aborted", true), ("waiting", true), ("waiting_retry", true)]

/-- checkValidJobState asserts, for each filter, that it is a key of the
validJobStates map; the boolean value of the entry is discarded
(`_, ok := validJobStates[st]`). Result false stands for the assertion
firing. -/
def checkValidJobState (stateFilters : List String) : Bool :=
  stateFilters.all (fun stv => (alGet validJobStates stv).isSome)

/-! The per-shard empty-result cache
(`dsEmptyResultCache map[dataSetT]map[string]map[string]bool`). -/

abbrev DsCache := List (String × List (String × Bool))

abbrev CacheT := List (dataSetT × DsCache)

instance : DecidableEq CacheT := fun a b => instDecidableEqList a b

def setMark (m : DsCache) (c stv : String) (b : Bool) : DsCache :=
  alSet m c (alSet ((alGet m c).getD []) stv b)

/-- markClearEmptyResult: with an empty state- or customVal-filter list,
mark=false deletes the whole dataset entry and mark=true is a no-op;
otherwise every (customVal, state) combination of the two lists is set
to `mark`. -/
def markClearEmptyResult (cache : CacheT) (ds : dataSetT) (stateFilters customValFilters : List String)
    (mark : Bool) : CacheT :=
  if stateFilters.isEmpty || customValFilters.isEmpty then
    if mark then cache else alErase cache ds
  else
    alSet cache ds
      (customValFilters.foldl
        (fun m c => stateFilters.foldl (fun m2 stv => setMark m2 c stv mark) m)
        ((alGet cache ds).getD []))

/-- isEmptyResult: true only when the dataset entry exists, both filter
lists are non-empty, and every (customVal, state) combination asked
about is marked true. -/
def isEmptyResult (cache : CacheT) (ds : dataSetT) (stateFilters customValFilters : List String) :
    Bool :=
  match alGet cache ds with
  | none => false
  | some m =>
    if stateFilters.isEmpty || customValFilters.isEmpty then false
    else customValFilters.all (fun c =>
      match alGet m c with
      | none => false
      | some sm => stateFilters.all (fun stv => (alGet sm stv).getD false))

/-- Three-level cache lookup, the reading discipline of isEmptyResult. -/
def cacheLookup (cache : CacheT) (ds : dataSetT) (c stv : String) : Option Bool :=
  (alGet cache ds).bind (fun m => (alGet m c).bind (fun sm => alGet sm stv))

/-! Database-level query semantics for one shard. -/

/-- The latest-status filter states used by migrateJobs. -/
def nonTerminalStates : List String := ["failed", "waiting", "waiting_retry", "executing"]

def hasStatusRow (rows : List StatusRow) (jid : Int) : Bool :=
  rows.any (fun r => r.st.jobID == jid)

def listMaxInt : List Int → Option Int
  | [] => none
  | x :: xs =>
    match listMaxInt xs with
    | none => some x
    | some m => some (max x m)

/-- MAX(id) over the status rows of one job_id group. -/
def groupMaxId (rows : List StatusRow) (g : Int) : Option Int :=
  listMaxInt ((rows.filter (fun r => r.st.jobID == g)).map (fun r => r.rid))

/-- The multiset produced by `SELECT MAX(id) FROM status GROUP BY job_id`. -/
def groupMaxIds (rows : List StatusRow) : List Int :=
  ((rows.map (fun r => r.st.jobID)).dedup).filterMap (fun g => groupMaxId rows g)

/-- Status rows satisfying `id IN (SELECT MAX(id) ... GROUP BY job_id)`. -/
def latestStatusRows (rows : List StatusRow) : List StatusRow :=
  rows.filter (fun r => (groupMaxIds rows).contains r.rid)

def ltIntBool (a b : Int) : Bool := decide (a < b)

def pairJobIdLE (a b : JobT × StatusRow) : Prop := a.1.jobID ≤ b.1.jobID

instance : DecidableRel pairJobIdLE := fun a b => Int.decLe a.1.jobID b.1.jobID

def jobIdLE (a b : JobT) : Prop := a.jobID ≤ b.jobID

instance : DecidableRel jobIdLE := fun a b => Int.decLe a.jobID b.jobID

/-- The `getAll` branch of getProcessedJobsDS: join of the jobs table
with the latest-status subquery restricted to the state filter; no
customVal filter, no retry-time clause, no ORDER BY, no LIMIT. -/
def dbGetProcessedAll (d : DataSet) (stateFilters : List String) : List (JobT × StatusRow) :=
  (d.jobs.map (fun j =>
    ((latestStatusRows d.statusRows).filter (fun r =>
      r.st.jobID == j.jobID
      && (stateFilters.isEmpty || stateFilters.contains r.st.jobState))).map
        (fun r => (j, r)))).flatten

/-- The normal branch of getProcessedJobsDS: the same join with the
state and customVal filters and `retry_time < now`, then ORDER BY
job_id, then LIMIT when positive. -/
def dbGetProcessed (d : DataSet) (stateFilters customValFilters : List String)
    (limitCount : Int) (now : Int) : List (JobT × StatusRow) :=
  let base := (d.jobs.map (fun j =>
    ((latestStatusRows d.statusRows).filter (fun r =>
      r.st.jobID == j.jobID
      && (stateFilters.isEmpty || stateFilters.contains r.st.jobState)
      && (customValFilters.isEmpty || customValFilters.contains j.customVal)
      && ltIntBool r.st.retryTime now)).map
        (fun r => (j, r)))).flatten
  let sorted := List.insertionSort pairJobIdLE base
  if 0 < limitCount then sorted.take limitCount.toNat else sorted

/-- getUnprocessedJobsDS database query: left anti-join of jobs with
status, optional customVal filter, optional ORDER BY, LIMIT when
positive. -/
def dbGetUnprocessed (d : DataSet) (customValFilters : List String) (order : Bool)
    (count : Int) : List JobT :=
  let base := d.jobs.filter (fun j => !(hasStatusRow d.statusRows j.jobID))
  let base := if customValFilters.isEmpty then base
              else base.filter (fun j => customValFilters.contains j.customVal)
  let base := if order then List.insertionSort jobIdLE base else base
  if 0 < count then base.take count.toNat else base

/-! Per-shard operations, threading the shard content and the cache. -/

/-- Serial assignment of job_ids: each inserted row draws `nextval`,
i.e. the successor of the current sequence value. -/
def assignJobIds : Int → List JobT → List JobT
  | _, [] => []
  | seq, j :: js => { j with jobID := seq + 1 } :: assignJobIds (seq + 1) js

def assignStatusIds : Int → List JobStatusT → List StatusRow
  | _, [] => []
  | seq, s :: ss => ⟨seq + 1, s⟩ :: assignStatusIds (seq + 1) ss

/-- Database effect of storeJobsDS: bulk append in one transaction; with
copyID the supplied job_id goes in verbatim, otherwise the sequence
assigns consecutive fresh ids. -/
def storePlain (d : DataSet) (copyID : Bool) (jobList : List JobT) : DataSet :=
  if copyID then { d with jobs := d.jobs ++ jobList }
  else { d with jobs := d.jobs ++ assignJobIds d.jobSeq jobList,
                jobSeq := d.jobSeq + jobList.length }

/-- Database effect of updateJobStatusDS on a non-empty list: bulk append
of status rows with serial ids. -/
def updatePlain (d : DataSet) (statusList : List JobStatusT) : DataSet :=
  { d with statusRows := d.statusRows ++ assignStatusIds d.statusSeq statusList,
           statusSeq := d.statusSeq + statusList.length }

/-- storeJobsDS: append, then clear the whole shard entry of the
empty-result cache (markClearEmptyResult with two empty filter lists and
mark=false). -/
def storeJobsDS (ds : dataSetT) (d : DataSet) (cache : CacheT) (copyID : Bool)
    (jobList : List JobT) : DataSet × CacheT :=
  (storePlain d copyID jobList, markClearEmptyResult cache ds [] [] false)

/-- The distinct states present in a status batch (the source collects
them in a set before clearing cache marks). -/
def writtenStates (statusList : List JobStatusT) : List String :=
  (statusList.map (fun s => s.jobState)).dedup

/-- updateJobStatusDS: empty input returns immediately with no
transaction and no cache change; otherwise append the rows and clear the
(written state, customVal filter) cache combinations. -/
def updateJobStatusDS (ds : dataSetT) (d : DataSet) (cache : CacheT)
    (statusList : List JobStatusT) (customValFilters : List String) : DataSet × CacheT :=
  if statusList.isEmpty then (d, cache)
  else (updatePlain d statusList,
        markClearEmptyResult cache ds (writtenStates statusList) customValFilters false)

/-- getUnprocessedJobsDS: consult the cache under key "NP"; on a cache
hit return without touching the database (third component false);
otherwise query, and memoize an empty result. -/
def getUnprocessedJobsDS (ds : dataSetT) (d : DataSet) (cache : CacheT)
    (customValFilters : List String) (order : Bool) (count : Int) :
    List JobT × CacheT × Bool :=
  if isEmptyResult cache ds ["NP"] customValFilters then ([], cache, false)
  else
    let res := dbGetUnprocessed d customValFilters order count
    (res,
     if res.isEmpty then markClearEmptyResult cache ds ["NP"] customValFilters true else cache,
     true)

/-- getProcessedJobsDS: validate states, consult the cache, enforce the
getAll assertions (no customVal filter, no limit), query, memoize an
empty result.  `none` stands for a tripped assertion. -/
def getProcessedJobsDS (ds : dataSetT) (d : DataSet) (cache : CacheT) (getAll : Bool)
    (stateFilters customValFilters : List String) (limitCount : Int) (now : Int) :
    Option (List (JobT × StatusRow) × CacheT × Bool) :=
  if !checkValidJobState stateFilters then none
  else if isEmptyResult cache ds stateFilters customValFilters then some ([], cache, false)
  else if !customValFilters.isEmpty && getAll then none
  else if decide (0 < limitCount) && getAll then none
  else
    let res := if getAll then dbGetProcessedAll d stateFilters
               else dbGetProcessed d stateFilters customValFilters limitCount now
    some (res,
          if res.isEmpty then markClearEmptyResult cache ds stateFilters customValFilters true
          else cache,
          true)

/-! migrateJobs (one source shard into the destination shard). -/

/-- The status row written into the destination for one migrated
unfinished job: the job's id with the six fields of its latest status
carried over. -/
def carryStatus (p : JobT × StatusRow) : JobStatusT :=
  { jobID := p.1.jobID, jobState := p.2.st.jobState, attemptNum := p.2.st.attemptNum,
    execTime := p.2.st.execTime, retryTime := p.2.st.retryTime,
    errorCode := p.2.st.errorCode, errorResponse := p.2.st.errorResponse }

/-- migrateJobs: read all unprocessed jobs of the source, read all jobs
whose latest status is failed/waiting/waiting_retry/executing (getAll
path), append both into the destination with copyID=true, then append
one carried-over status row per unfinished job. -/
def migrateJobs (srcDS destDS : dataSetT) (src dest : DataSet) (cache : CacheT) :
    Option (DataSet × CacheT) :=
  let u := getUnprocessedJobsDS srcDS src cache [] false 0
  match getProcessedJobsDS srcDS src u.2.1 true nonTerminalStates [] 0 0 with
  | none => none
  | some (retryList, cache2, _) =>
    let s1 := storeJobsDS destDS dest cache2 true (u.1 ++ retryList.map (fun p => p.1))
    some (updateJobStatusDS destDS s1.1 s1.2 (retryList.map carryStatus) [])

/-- The per-source loop of the maintenance path: migrateJobs invoked on
each source shard in order, into the same destination. -/
def migrateAll (destDS : dataSetT) :
    List (dataSetT × DataSet) → DataSet → CacheT → Option (DataSet × CacheT)
  | [], dest, cache => some (dest, cache)
  | (sk, s) :: rest, dest, cache =>
    match migrateJobs sk destDS s dest cache with
    | none => none
    | some (dest2, cache2) => migrateAll destDS rest dest2 cache2

/-! checkIfMigrateDS and the migration-selection loop of mainCheckLoop. -/

/-- Go constants: jobDoneMigrateThres = 0.8, jobStatusMigrateThres = 5,
maxDSSize = 100000, maxMigrateOnce = 10. -/
def maxDSSize : Int := 100000

def maxMigrateOnce : Nat := 10

def listMinInt : List Int → Option Int
  | [] => none
  | x :: xs =>
    match listMinInt xs with
    | none => some x
    | some m => some (min x m)

/-- checkIfMigrateDS: totalCount is COUNT(*) of jobs; delCount is
COUNT(DISTINCT(id)) of status rows in state succeeded or aborted (id is
the status table's serial primary key); statusCount is COUNT(*) of
status rows.  A zero-job shard asserts both other counts are zero and
reports (false, 0).  Retention (when positive) suppresses migration
while MAX(created_at) is within the window.  The two threshold
comparisons `delCount/totalCount > 0.8` and
`statusCount/totalCount > 5` are the exact rational forms of the
source's float64 divisions. -/
def checkIfMigrateDS (d : DataSet) (retentionPeriod : Int) (now : Int) : Option (Bool × Int) :=
  let totalCount : Int := d.jobs.length
  let delCount : Int :=
    (((d.statusRows.filter (fun r =>
        r.st.jobState == "succeeded" || r.st.jobState == "aborted")).map
      (fun r => r.rid)).dedup).length
  let statusCount : Int := d.statusRows.length
  if totalCount = 0 then
    if delCount = 0 ∧ statusCount = 0 then some (false, 0) else none
  else
    match listMaxInt (d.jobs.map (fun j => j.createdAt)) with
    | none => none
    | some lastUpdate =>
      if 0 < retentionPeriod ∧ now - lastUpdate < retentionPeriod then
        some (false, totalCount - delCount)
      else if 5 * delCount > 4 * totalCount ∨ statusCount > 5 * totalCount then
        some (true, totalCount - delCount)
      else some (false, totalCount - delCount)

/-- The shard-selection loop of mainCheckLoop, abstracted over the
result of the checkIfMigrateDS probe of each shard: walk the snapshot
left to right; take a shard while it is not the newest (idx < n-1), the
probe reports migratable, fewer than maxMigrateOnce shards are taken,
and the live count accumulated so far is below maxDSSize; stop at the
first shard failing any condition.  Returns the selected prefix and the
final accumulated live count. -/
def selectGo (probe : dataSetT → Bool × Int) (n : Nat) :
    List dataSetT → Nat → Int → List dataSetT × Int
  | [], _, live => ([], live)
  | ds :: rest, idx, live =>
    let p := probe ds
    if idx + 1 < n ∧ p.1 = true ∧ idx < maxMigrateOnce ∧ live < maxDSSize then
      let r := selectGo probe n rest (idx + 1) (live + p.2)
      (ds :: r.1, r.2)
    else ([], live)

def selectMigrateFrom (dsList : List dataSetT) (probe : dataSetT → Bool × Int) :
    List dataSetT × Int :=
  selectGo probe dsList.length dsList 0 0

/-! getDSRangeList over a catalog (ordered shard list with jobs
tables), recording which shards' jobs tables the MIN/MAX query is
issued against. -/

/-- One step per shard: assert Index non-empty, issue
`SELECT MIN(job_id), MAX(job_id)` (the shard is appended to the query
log), and for every shard except the last assert both values non-null
and the minimum above the previous maximum, recording the range. -/
def rangeGo : List (dataSetT × List JobT) → Nat → Int →
    Option (List dataSetRangeT × List dataSetT)
  | [], _, _ => some ([], [])
  | (k, jobs) :: rest, idx, prevMax =>
    if k.index = "" then none
    else
      let mn := listMinInt (jobs.map (fun j => j.jobID))
      let mx := listMaxInt (jobs.map (fun j => j.jobID))
      if rest.isEmpty then some ([], [k])
      else
        match mn, mx with
        | some mnv, some mxv =>
          if idx = 0 ∨ prevMax < mnv then
            match rangeGo rest (idx + 1) mxv with
            | none => none
            | some (rl, lg) => some (⟨mnv, mxv, k⟩ :: rl, k :: lg)
          else none
        | _, _ => none

def getDSRangeList (catalog : List (dataSetT × List JobT)) :
    Option (List dataSetRangeT × List dataSetT) :=
  rangeGo catalog 0 0

/-! addNewDS in the append-last configuration (the roll-over path). -/

def splitUnderscoreAux : List Char → List Char → List (List Char)
  | [], acc => [acc.reverse]
  | c :: cs, acc =>
    if c = '_' then acc.reverse :: splitUnderscoreAux cs []
    else splitUnderscoreAux cs (c :: acc)

/-- strings.Split(s, "_"). -/
def splitUnderscore (s : String) : List String :=
  (splitUnderscoreAux s.toList []).map (fun cs => String.mk cs)

def digitsToNatAux : List Char → Nat → Option Nat
  | [], acc => some acc
  | c :: cs, acc =>
    if c.isDigit then digitsToNatAux cs (acc * 10 + (c.toNat - 48)) else none

/-- strconv.Atoi restricted to the unsigned decimal shard suffixes it is
applied to: fails on the empty string or any non-digit. -/
def atoiNat (s : String) : Option Nat :=
  match s.toList with
  | [] => none
  | l => digitsToNatAux l 0

/-- mapDSToLevel: split the index on underscores; one component is a
level-0 index, two components a level-1 index, anything else (or a
non-numeric component) trips an assertion. -/
def mapDSToLevel (ds : dataSetT) : Option (Nat × List Nat) :=
  match splitUnderscore ds.index with
  | [a] => (atoiNat a).map (fun n => (1, [n]))
  | [a, b] =>
    match atoiNat a, atoiNat b with
    | some n, some m => some (2, [n, m])
    | _, _ => none
  | _ => none

def natToStrAux : Nat → Nat → List Char
  | 0, _ => []
  | fuel + 1, n =>
    if n < 10 then [Nat.digitChar n]
    else natToStrAux fuel (n / 10) ++ [Nat.digitChar (n % 10)]

/-- Decimal rendering of the non-negative shard indices
(fmt.Sprintf with a percent-d verb). -/
def natToStr (n : Nat) : String := String.mk (natToStrAux (n + 1) n)

def createTableNames (pfx idx : String) : String × String :=
  (pfx ++ "_jobs_" ++ idx, pfx ++ "_job_status_" ++ idx)

/-- addNewDS with appendLast=true: compute the next level-0 index
(asserting the current last shard is level-0), create the empty table
pair, refresh the range list, and if any range entry exists call
`setval` on the new jobs sequence with the last range's maxJobID (so the
next `nextval` returns maxJobID+1).  Returns the new catalog and the
argument passed to setval (none when no setval was issued). -/
def addNewDSAppendLast (pfx : String) (catalog : List (dataSetT × DataSet)) :
    Option (List (dataSetT × DataSet) × Option Int) :=
  let newIdxOpt :=
    match catalog.getLast? with
    | none => some "1"
    | some (k, _) =>
      match mapDSToLevel k with
      | some (1, [n]) => some (natToStr (n + 1))
      | _ => none
  match newIdxOpt with
  | none => none
  | some newIdx =>
    let names := createTableNames pfx newIdx
    let newKey : dataSetT := ⟨names.1, names.2, newIdx⟩
    let catalog2 := catalog ++ [(newKey, emptyDS)]
    match getDSRangeList (catalog2.map (fun p => (p.1, p.2.jobs))) with
    | none => none
    | some (rl, _) =>
      match rl.getLast? with
      | none => some (catalog2, none)
      | some lastRange =>
        if 0 < lastRange.maxJobID then
          some (catalog ++ [(newKey, { emptyDS with jobSeq := lastRange.maxJobID })],
                some lastRange.maxJobID)
        else none

/-! UpdateJobStatus: sort by job_id, then bucket against the range list;
the tail above all ranges goes to the newest shard.  The result is the
ordered list of updateJobStatusDS calls (shard, sub-batch); `none`
stands for a tripped assertion or runtime panic. -/

def statusJobIdLE (a b : JobStatusT) : Prop := a.jobID ≤ b.jobID

instance : DecidableRel statusJobIdLE := fun a b => Int.decLe a.jobID b.jobID

def routeLoop (lastDS : dataSetT) :
    List dataSetRangeT → List JobStatusT → Option (List (dataSetT × List JobStatusT))
  | [], rest => some (if rest.isEmpty then [] else [(lastDS, rest)])
  | r :: rs, rest =>
    match rest with
    | [] => none
    | s0 :: _ =>
      if s0.jobID < r.minJobID then none
      else
        let batch := rest.takeWhile (fun s => decide (s.jobID ≤ r.maxJobID))
        let rest2 := rest.dropWhile (fun s => decide (s.jobID ≤ r.maxJobID))
        if rest2.isEmpty then some [(r.ds, batch)]
        else
          match routeLoop lastDS rs rest2 with
          | none => none
          | some more => some ((r.ds, batch) :: more)

def updateJobStatusRoute (rangeList : List dataSetRangeT) (lastDS : dataSetT)
    (statusList : List JobStatusT) : Option (List (dataSetT × List JobStatusT)) :=
  routeLoop lastDS rangeList (List.insertionSort statusJobIdLE statusList)

/-! The public GetUnprocessed / GetProcessed readers: walk the shard
list oldest first, accumulating up to count jobs.  The third component
of the result is the list of shards whose tables were actually queried
(a cache short-circuit does not query). -/

def getUnprocLoop : List (dataSetT × DataSet) → CacheT → List String → Int →
    Option (List JobT × CacheT × List dataSetT)
  | [], cache, _, _ => some ([], cache, [])
  | (k, d) :: rest, cache, cvals, count =>
    if count ≤ 0 then none
    else
      let r := getUnprocessedJobsDS k d cache cvals true count
      let count2 := count - r.1.length
      if count2 < 0 then none
      else if count2 = 0 then some (r.1, r.2.1, if r.2.2 then [k] else [])
      else
        match getUnprocLoop rest r.2.1 cvals count2 with
        | none => none
        | some (out, c2, lg) => some (r.1 ++ out, c2, (if r.2.2 then [k] else []) ++ lg)

def GetUnprocessed (db : List (dataSetT × DataSet)) (cache : CacheT)
    (customValFilters : List String) (count : Int) :
    Option (List JobT × CacheT × List dataSetT) :=
  if count < 0 then none
  else if count = 0 then some ([], cache, [])
  else getUnprocLoop db cache customValFilters count

def getProcLoop : List (dataSetT × DataSet) → CacheT → List String → List String → Int → Int →
    Option (List (JobT × StatusRow) × CacheT × List dataSetT)
  | [], cache, _, _, _, _ => some ([], cache, [])
  | (k, d) :: rest, cache, srows, cvals, count, now =>
    if count ≤ 0 then none
    else
      match getProcessedJobsDS k d cache false srows cvals count now with
      | none => none
      | some (jobs, cache2, touched) =>
        let count2 := count - jobs.length
        if count2 < 0 then none
        else if count2 = 0 then some (jobs, cache2, if touched then [k] else [])
        else
          match getProcLoop rest cache2 srows cvals count2 now with
          | none => none
          | some (out, c2, lg) => some (jobs ++ out, c2, (if touched then [k] else []) ++ lg)

def GetProcessed (db : List (dataSetT × DataSet)) (cache : CacheT)
    (stateFilter customValFilters : List String) (count : Int) (now : Int) :
    Option (List (JobT × StatusRow) × CacheT × List dataSetT) :=
  if count < 0 then none
  else if count = 0 then some ([], cache, [])
  else getProcLoop db cache stateFilter customValFilters count now

def GetToRetry (db : List (dataSetT × DataSet)) (cache : CacheT)
    (customValFilters : List String) (count : Int) (now : Int) :
    Option (List (JobT × StatusRow) × CacheT × List dataSetT) :=
  GetProcessed db cache ["failed"] customValFilters count now

def GetWaiting (db : List (dataSetT × DataSet)) (cache : CacheT)
    (customValFilters : List String) (count : Int) (now : Int) :
    Option (List (JobT × StatusRow) × CacheT × List dataSetT) :=
  GetProcessed db cache ["waiting"] customValFilters count now

def GetExecuting (db : List (dataSetT × DataSet)) (cache : CacheT)
    (customValFilters : List String) (count : Int) (now : Int) :
    Option (List (JobT × StatusRow) × CacheT × List dataSetT) :=
  GetProcessed db cache ["executing"] customValFilters count now

/-! Operation sequences on one shard, run with and without the
empty-result cache. -/

inductive OutT where
  | unproc (l : List JobT)
  | proc (l : List (JobT × StatusRow))
deriving DecidableEq

inductive OpT where
  | store (copyID : Bool) (jobList : List JobT)
  | update (statusList : List JobStatusT) (customValFilters : List String)
  | getUnproc (customValFilters : List String) (order : Bool) (count : Int)
  | getProc (getAll : Bool) (stateFilters customValFilters : List String)
      (limitCount : Int) (now : Int)
deriving DecidableEq

/-- The database transition of one operation, ignoring assertions. -/
def stepPlainDS (d : DataSet) : OpT → DataSet
  | .store copyID l => storePlain d copyID l
  | .update sl _ => if sl.isEmpty then d else updatePlain d sl
  | _ => d

/-- One operation with the cache disabled: the bare database semantics
(same assertion behavior as the cached getProcessed path on
well-formed inputs). -/
def stepPlain (d : DataSet) : OpT → Option (DataSet × Option OutT)
  | .store copyID l => some (storePlain d copyID l, none)
  | .update sl _ => some (if sl.isEmpty then d else updatePlain d sl, none)
  | .getUnproc cvals o n => some (d, some (.unproc (dbGetUnprocessed d cvals o n)))
  | .getProc ga srows cvals lim now =>
    if !checkValidJobState srows then none
    else if !cvals.isEmpty && ga then none
    else if decide (0 < lim) && ga then none
    else some (d, some (.proc (if ga then dbGetProcessedAll d srows
                               else dbGetProcessed d srows cvals lim now)))

def runPlain : List OpT → DataSet → Option (DataSet × List OutT)
  | [], d => some (d, [])
  | op :: ops, d =>
    match stepPlain d op with
    | none => none
    | some (d2, out) =>
      match runPlain ops d2 with
      | none => none
      | some (d3, outs) => some (d3, out.toList ++ outs)

/-- One operation with the cache enabled, exactly as the per-shard
functions implement it. -/
def stepCached (key : dataSetT) (d : DataSet) (cache : CacheT) :
    OpT → Option (DataSet × CacheT × Option OutT)
  | .store copyID l =>
    let r := storeJobsDS key d cache copyID l
    some (r.1, r.2, none)
  | .update sl cvals =>
    let r := updateJobStatusDS key d cache sl cvals
    some (r.1, r.2, none)
  | .getUnproc cvals o n =>
    let r := getUnprocessedJobsDS key d cache cvals o n
    some (d, r.2.1, some (.unproc r.1))
  | .getProc ga srows cvals lim now =>
    match getProcessedJobsDS key d cache ga srows cvals lim now with
    | none => none
    | some (res, cache2, _) => some (d, cache2, some (.proc res))

def runCached (key : dataSetT) :
    List OpT → DataSet → CacheT → Option (DataSet × CacheT × List OutT)
  | [], d, cache => some (d, cache, [])
  | op :: ops, d, cache =>
    match stepCached key d cache op with
    | none => none
    | some (d2, cache2, out) =>
      match runCached key ops d2 cache2 with
      | none => none
      | some (d3, cache3, outs) => some (d3, cache3, out.toList ++ outs)

/-- The six states of the job_state_type enum: the only values the
database accepts in a status row. -/
def realJobStates : List String :=
  ["waiting", "executing", "succeeded", "waiting_retry", "failed", "aborted"]

/-- Caller discipline for one operation: Store never preserves ids
(preserveID is internal to migration); updateStatus writes only enum
states and passes customVal filters covering the custom_val of every
job it touches (or an empty filter list, which clears the whole shard
entry); getProcessed passes validated non-internal states and respects
the getAll assertions. -/
def goodOp (d : DataSet) : OpT → Bool
  | .store copyID _ => !copyID
  | .update sl cvals =>
    sl.all (fun s => realJobStates.contains s.jobState)
    && (cvals.isEmpty || sl.all (fun s =>
          d.jobs.all (fun j => j.jobID != s.jobID || cvals.contains j.customVal)))
  | .getUnproc _ _ _ => true
  | .getProc ga srows cvals lim _ =>
    checkValidJobState srows && !(srows.contains "NP")
    && (!ga || (cvals.isEmpty && decide (lim ≤ 0)))

def goodOps : DataSet → List OpT → Bool
  | _, [] => true
  | d, op :: ops => goodOp d op && goodOps (stepPlainDS d op) ops

def opNow : OpT → Option Int
  | .getProc _ _ _ _ now => some now
  | _ => none

/-! Concrete example data used by witness and counterexample theorems. -/

def exJob (jid : Int) (cv : String) : JobT :=
  { jobID := jid, uuid := 0, customVal := cv, eventPayload := "p", createdAt := 0,
    expireAt := 0 }

def exStatus (jid : Int) (s : String) (retry : Int) : JobStatusT :=
  { jobID := jid, jobState := s, attemptNum := 1, execTime := 0, retryTime := retry,
    errorCode := "", errorResponse := "" }

def exK1 : dataSetT := ⟨"t_jobs_1", "t_job_status_1", "1"⟩

def exK2 : dataSetT := ⟨"t_jobs_2", "t_job_status_2", "2"⟩

def exK3 : dataSetT := ⟨"t_jobs_3", "t_job_status_3", "3"⟩

/-- A shard with ten jobs where job 1 holds nine succeeded status rows
(e.g. nine redundant success acknowledgements). -/
def bugDS : DataSet :=
  { jobs := [exJob 1 "A", exJob 2 "A", exJob 3 "A", exJob 4 "A", exJob 5 "A",
             exJob 6 "A", exJob 7 "A", exJob 8 "A", exJob 9 "A", exJob 10 "A"],
    statusRows := [⟨1, exStatus 1 "succeeded" 0⟩, ⟨2, exStatus 1 "succeeded" 0⟩,
                   ⟨3, exStatus 1 "succeeded" 0⟩, ⟨4, exStatus 1 "succeeded" 0⟩,
                   ⟨5, exStatus 1 "succeeded" 0⟩, ⟨6, exStatus 1 "succeeded" 0⟩,
                   ⟨7, exStatus 1 "succeeded" 0⟩, ⟨8, exStatus 1 "succeeded" 0⟩,
                   ⟨9, exStatus 1 "succeeded" 0⟩],
    jobSeq := 10, statusSeq := 9 }

/-! Theorems. -/

/-- C8: calling GetUnprocessed or GetProcessed (including the
GetToRetry, GetWaiting and GetExecuting wrappers) with count = 0
returns an empty sequence immediately: no shard is visited, so no
database query is issued, the empty-result cache is returned unread and
unmodified, and the query log is empty. -/
theorem getWithZeroCount_returnsEmpty_noDB (db : List (dataSetT × DataSet)) (cache : CacheT)
    (stateFilter customValFilters : List String) (now : Int) :
    GetUnprocessed db cache customValFilters 0 = some ([], cache, [])
    ∧ GetProcessed db cache stateFilter customValFilters 0 now = some ([], cache, [])
    ∧ GetToRetry db cache customValFilters 0 now = some ([], cache, [])
    ∧ GetWaiting db cache customValFilters 0 now = some ([], cache, [])
    ∧ GetExecuting db cache customValFilters 0 now = some ([], cache, []) := by
  refine ⟨?_, ?_, ?_, ?_, ?_⟩ <;>
    simp [GetUnprocessed, GetProcessed, GetToRetry, GetWaiting, GetExecuting]

theorem take_toNat_length_le {α : Type} (l : List α) (lim : Int) (h : 0 < lim) :
    ((l.take lim.toNat).length : Int) ≤ lim := by
  have hnn : (0 : Int) ≤ lim := le_of_lt h
  rw [List.length_take]
  calc ((min lim.toNat l.length : Nat) : Int)
      ≤ (lim.toNat : Int) := by exact_mod_cast Nat.min_le_left _ _
    _ = lim := Int.toNat_of_nonneg hnn

theorem dbGetProcessed_length_le (d : DataSet) (S C : List String) (lim now : Int)
    (h : 0 < lim) : ((dbGetProcessed d S C lim now).length : Int) ≤ lim := by
  simp only [dbGetProcessed, if_pos h]
  exact take_toNat_length_le _ lim h

theorem getProcessedJobsDS_noAll_isSome (k : dataSetT) (d : DataSet) (cache : CacheT)
    (S C : List String) (count now : Int) (hS : checkValidJobState S = true) :
    ∃ jobs cache2 t, getProcessedJobsDS k d cache false S C count now = some (jobs, cache2, t)
      ∧ (0 < count → (jobs.length : Int) ≤ count) := by
  by_cases he : isEmptyResult cache k S C
  · refine ⟨[], cache, false, by simp [getProcessedJobsDS, hS, he], ?_⟩
    intro h
    simpa using le_of_lt h
  · refine ⟨dbGetProcessed d S C count now,
      if (dbGetProcessed d S C count now).isEmpty then markClearEmptyResult cache k S C true
      else cache, true, ?_, ?_⟩
    · simp [getProcessedJobsDS, hS, he]
    · intro hc
      exact dbGetProcessed_length_le d S C count now hc

theorem getProcLoop_isSome (S : List String) (hS : checkValidJobState S = true)
    (db : List (dataSetT × DataSet)) :
    ∀ (cache : CacheT) (C : List String) (count now : Int),
    0 < count → (getProcLoop db cache S C count now).isSome = true := by
  induction db with
  | nil => intro cache C count now _; simp [getProcLoop]
  | cons p rest ih =>
    intro cache C count now h
    obtain ⟨k, d⟩ := p
    obtain ⟨jobs, cache2, t, heq, hlen⟩ :=
      getProcessedJobsDS_noAll_isSome k d cache S C count now hS
    have hle := hlen h
    simp only [getProcLoop, heq]
    rw [if_neg (by omega)]
    by_cases h0 : count - (jobs.length : Int) = 0
    · simp [h0]
    · rw [if_neg (by omega), if_neg h0]
      have := ih cache2 C (count - (jobs.length : Int)) now (by omega)
      obtain ⟨r, hr⟩ := Option.isSome_iff_exists.mp this
      obtain ⟨out, c2, lg⟩ := r
      simp [hr]

/-- C10: checkValidJobState accepts any filter that is a key of the
validJobStates map and ignores the value, so the internal marker state
NP passes validation: a GetProcessed call whose state filters are NP
together with any other valid keys never trips an assertion, even
though NP is flagged internal with value false in the map. -/
theorem checkValidJobState_NP_passes (db : List (dataSetT × DataSet)) (cache : CacheT)
    (S2 C : List String) (count now : Int) (h0 : 0 ≤ count)
    (hS : ∀ s ∈ S2, (alGet validJobStates s).isSome = true) :
    checkValidJobState ("NP" :: S2) = true
    ∧ alGet validJobStates "NP" = some false
    ∧ (GetProcessed db cache ("NP" :: S2) C count now).isSome = true := by
  have hv : checkValidJobState ("NP" :: S2) = true := by
    simp [checkValidJobState, List.all_eq_true]
    constructor
    · simp [validJobStates, alGet]
    · intro s hs
      exact hS s hs
  refine ⟨hv, by simp [validJobStates, alGet], ?_⟩
  by_cases hz : count = 0
  · subst hz
    simp [GetProcessed]
  · have hpos : 0 < count := by omega
    simp only [GetProcessed, if_neg (by omega : ¬ count < 0), if_neg hz]
    exact getProcLoop_isSome ("NP" :: S2) hv db cache C count now hpos

theorem checkValidJobState_NP_passes_witness :
    (GetProcessed [(exK1, emptyDS)] [] ["NP", "failed"] ["A"] 2 0).isSome = true := by
  exact (checkValidJobState_NP_passes [(exK1, emptyDS)] [] ["failed"] ["A"] 2 0
    (by decide) (by decide)).2.2

/-- C9 (amended): updateJobStatusDS with an empty status list is a
complete no-op (no transaction, no rows, cache untouched), and
UpdateJobStatus with an empty status list completes as a no-op exactly
when the range list is empty; with a non-empty range list it panics
(separate counterexample theorem). -/
theorem updateJobStatusDS_empty_noop (ds lastDS : dataSetT) (d : DataSet) (cache : CacheT)
    (customValFilters : List String) :
    updateJobStatusDS ds d cache [] customValFilters = (d, cache)
    ∧ updateJobStatusRoute [] lastDS [] = some [] := by
  constructor
  · simp [updateJobStatusDS]
  · simp [updateJobStatusRoute, routeLoop, List.insertionSort]

/-- C9 counterexample: UpdateJobStatus on an empty status batch with a
non-empty in-memory range list is not a no-op: the per-range assertion
indexes the first element of the empty batch and panics (modelled as
none). -/
theorem updateJobStatus_empty_panics :
    updateJobStatusRoute [⟨1, 10, exK1⟩] exK2 [] = none := by decide

/-- C4: on a shard of 10 jobs where one job carries nine succeeded
status rows, checkIfMigrateDS reports the shard compactable: its
delCount is COUNT(DISTINCT(id)) over terminal status rows, i.e. the
number of terminal status rows (9), not the number of distinct terminal
jobs (1), so 9/10 > 0.8 fires even though the distinct-terminal-job
fraction is 1/10 and the status-row ratio 9/10 is far below 5. -/
theorem checkIfMigrateDS_counts_rows_not_jobs :
    checkIfMigrateDS bugDS 0 100 = some (true, 1)
    ∧ (((bugDS.statusRows.filter (fun r =>
          r.st.jobState == "succeeded" || r.st.jobState == "aborted")).map
        (fun r => r.st.jobID)).dedup).length = 1
    ∧ bugDS.jobs.length = 10
    ∧ bugDS.statusRows.length = 9
    ∧ ¬ (5 * (1 : Int) > 4 * 10 ∨ (9 : Int) > 5 * 10) := by decide

/-! C5: the shard-selection loop of mainCheckLoop. -/

def sumLive (probe : dataSetT → Bool × Int) (l : List dataSetT) : Int :=
  (l.map (fun ds => (probe ds).2)).sum

def migratePrefix (dsList : List dataSetT) (probe : dataSetT → Bool × Int) : List dataSetT :=
  (selectMigrateFrom dsList probe).1

theorem selectGo_spec (probe : dataSetT → Bool × Int) (n : Nat) (l : List dataSetT) :
    ∀ (idx : Nat) (live : Int) (sel : List dataSetT) (fin : Int),
    selectGo probe n l idx live = (sel, fin) →
    (sel = l.take sel.length
     ∧ fin = live + sumLive probe sel
     ∧ (∀ ds ∈ sel, (probe ds).1 = true)
     ∧ (sel = [] ∨ (idx + sel.length < n ∧ idx + sel.length ≤ maxMigrateOnce))
     ∧ (∀ k, k < sel.length → live + sumLive probe (sel.take k) < maxDSSize)
     ∧ (idx + sel.length + 1 < n → idx + sel.length < maxMigrateOnce →
        live + sumLive probe sel < maxDSSize →
        ∀ ds2 rest2, l.drop sel.length = ds2 :: rest2 → (probe ds2).1 = false)) := by
  induction l with
  | nil =>
    intro idx live sel fin h
    simp only [selectGo, Prod.mk.injEq] at h
    obtain ⟨h1, h2⟩ := h
    subst h1
    subst h2
    simp [sumLive]
  | cons ds rest ih =>
    intro idx live sel fin h
    simp only [selectGo] at h
    by_cases hc : idx + 1 < n ∧ (probe ds).1 = true ∧ idx < maxMigrateOnce ∧ live < maxDSSize
    · rw [if_pos hc] at h
      obtain ⟨hn1, hp, hm, hl⟩ := hc
      rcases hr : selectGo probe n rest (idx + 1) (live + (probe ds).2) with ⟨sel2, fin2⟩
      rw [hr] at h
      obtain ⟨hsel, hfin⟩ := Prod.mk.injEq .. ▸ h
      obtain ⟨ih1, ih2, ih3, ih4, ih5, ih6⟩ := ih (idx + 1) (live + (probe ds).2) sel2 fin2 hr
      subst hsel
      subst hfin
      refine ⟨?_, ?_, ?_, ?_, ?_, ?_⟩
      · simp only [List.length_cons, List.take_succ_cons]
        rw [← ih1]
      · simp only [sumLive, List.map_cons, List.sum_cons]
        simp only [sumLive] at ih2
        omega
      · intro x hx
        rcases List.mem_cons.mp hx with hx1 | hx2
        · subst hx1; exact hp
        · exact ih3 x hx2
      · right
        rcases ih4 with h4 | ⟨h4a, h4b⟩
        · subst h4
          simp only [List.length_cons, List.length_nil]
          omega
        · simp only [List.length_cons]
          omega
      · intro k hk
        cases k with
        | zero => simpa [sumLive] using hl
        | succ k2 =>
          simp only [List.length_cons, Nat.succ_lt_succ_iff] at hk
          have := ih5 k2 hk
          simp only [List.take_succ_cons, sumLive, List.map_cons, List.sum_cons]
          simp only [sumLive] at this
          omega
      · intro ha1 ha2 ha3 ds2 rest2 hd
        simp only [List.length_cons] at ha1 ha2
        simp only [List.length_cons, List.drop_succ_cons] at hd
        refine ih6 (by omega) (by omega) ?_ ds2 rest2 hd
        simp only [sumLive, List.map_cons, List.sum_cons] at ha3
        simp only [sumLive]
        omega
    · rw [if_neg hc] at h
      obtain ⟨h1, h2⟩ := Prod.mk.injEq .. ▸ h
      subst h1
      subst h2
      refine ⟨by simp, by simp [sumLive], by simp, Or.inl rfl, by simp, ?_⟩
      intro ha1 ha2 ha3 ds2 rest2 hd
      simp only [List.length_nil, List.drop_zero] at hd
      obtain ⟨hde, _⟩ := List.cons.injEq .. ▸ hd
      rw [← hde]
      simp only [List.length_nil, Nat.add_zero] at ha1 ha2
      simp only [sumLive, List.map_nil, List.sum_nil, Int.add_zero] at ha3
      have hnp : ¬ (probe ds).1 = true := fun hp => hc ⟨by omega, hp, ha2, ha3⟩
      exact Bool.eq_false_iff.mpr hnp

/-- C5 (amended): in every maintenance iteration the shards selected for
compaction form a prefix of the snapshot that excludes the newest shard,
contains at most maxMigrateOnce shards, only shards reported
compactable, and a shard is selected only while the live count
accumulated over the previously selected shards is still below
maxDSSize; when selection stops for none of those reasons, the next
shard was reported non-compactable.  (The total live count of the
selected prefix itself may exceed maxDSSize: see the counterexample.) -/
theorem mainCheckLoop_selection_props (dsList : List dataSetT) (probe : dataSetT → Bool × Int) :
    migratePrefix dsList probe = dsList.take (migratePrefix dsList probe).length
    ∧ (migratePrefix dsList probe).length ≤ dsList.length - 1
    ∧ (migratePrefix dsList probe).length ≤ maxMigrateOnce
    ∧ (∀ ds ∈ migratePrefix dsList probe, (probe ds).1 = true)
    ∧ (∀ k, k < (migratePrefix dsList probe).length →
        sumLive probe ((migratePrefix dsList probe).take k) < maxDSSize)
    ∧ ((migratePrefix dsList probe).length + 1 < dsList.length →
       (migratePrefix dsList probe).length < maxMigrateOnce →
       sumLive probe (migratePrefix dsList probe) < maxDSSize →
       ∀ ds2 rest2, dsList.drop (migratePrefix dsList probe).length = ds2 :: rest2 →
         (probe ds2).1 = false) := by
  rcases hr : selectGo probe dsList.length dsList 0 0 with ⟨sel, fin⟩
  have hmp : migratePrefix dsList probe = sel := by
    simp [migratePrefix, selectMigrateFrom, hr]
  obtain ⟨h1, _, h3, h4, h5, h6⟩ := selectGo_spec probe dsList.length dsList 0 0 sel fin hr
  rw [hmp]
  refine ⟨h1, ?_, ?_, h3, ?_, ?_⟩
  · rcases h4 with h4 | ⟨h4a, _⟩
    · subst h4; simp
    · omega
  · rcases h4 with h4 | ⟨_, h4b⟩
    · subst h4; simp [maxMigrateOnce]
    · omega
  · intro k hk
    have := h5 k hk
    omega
  · intro ha1 ha2 ha3
    exact h6 (by omega) (by omega) (by omega)

/-- A probe outcome under which the first two shards are compactable
with 99999 and 50000 live jobs. -/
def exProbe (ds : dataSetT) : Bool × Int :=
  if ds.index = "1" then (true, 99999)
  else if ds.index = "2" then (true, 50000)
  else (true, 0)

/-- C5 counterexample: with shard 1 reporting (compactable, 99999 live)
and shard 2 reporting (compactable, 50000 live), the loop selects both
(99999 < maxDSSize when shard 2 is considered), so the accumulated live
count of the selected prefix is 149999, exceeding maxDSSize = 100000:
the selection does not stop before the prefix total would exceed
maxDSSize. -/
theorem mainCheckLoop_prefix_exceeds_maxDSSize :
    migratePrefix [exK1, exK2, exK3] exProbe = [exK1, exK2]
    ∧ sumLive exProbe (migratePrefix [exK1, exK2, exK3] exProbe) = 149999
    ∧ ¬ (sumLive exProbe (migratePrefix [exK1, exK2, exK3] exProbe) ≤ maxDSSize) := by
  decide

/-- A probe outcome under which only the first shard is compactable. -/
def exProbe2 (ds : dataSetT) : Bool × Int :=
  if ds.index = "1" then (true, 5) else (false, 0)

theorem mainCheckLoop_selection_props_witness :
    migratePrefix [exK1, exK2, exK3] exProbe2 = [exK1] ∧ (exProbe2 exK2).1 = false := by
  have h := mainCheckLoop_selection_props [exK1, exK2, exK3] exProbe2
  refine ⟨by decide, ?_⟩
  exact h.2.2.2.2.2 (by decide) (by decide) (by decide) exK2 [exK3] (by decide)

/-! C7 and C2: the range list and the roll-over setval. -/

def jobsMin (jobs : List JobT) : Int := (listMinInt (jobs.map (fun j => j.jobID))).getD 0

def jobsMax (jobs : List JobT) : Int := (listMaxInt (jobs.map (fun j => j.jobID))).getD 0

theorem listMinInt_of_ne_nil (l : List Int) (h : l ≠ []) : ∃ v, listMinInt l = some v := by
  cases l with
  | nil => exact absurd rfl h
  | cons a t => cases ht : listMinInt t <;> simp [listMinInt, ht]

theorem listMaxInt_of_ne_nil (l : List Int) (h : l ≠ []) : ∃ v, listMaxInt l = some v := by
  cases l with
  | nil => exact absurd rfl h
  | cons a t => cases ht : listMaxInt t <;> simp [listMaxInt, ht]

theorem listMaxInt_ge (l : List Int) : ∀ v, listMaxInt l = some v → ∀ x ∈ l, x ≤ v := by
  induction l with
  | nil => intro v hv; simp [listMaxInt] at hv
  | cons a t ih =>
    intro v hv x hx
    rw [listMaxInt] at hv
    rcases ht : listMaxInt t with _ | m <;> rw [ht] at hv <;> simp at hv
    · subst hv
      cases t with
      | nil => simp at hx; omega
      | cons b t2 =>
        rw [listMaxInt] at ht
        rcases h2 : listMaxInt t2 with _ | m2 <;> (rw [h2] at ht; simp at ht)
    · rcases List.mem_cons.mp hx with h1 | h2
      · subst h1
        subst hv
        exact le_max_left _ _
      · have h3 := ih m ht x h2
        subst hv
        exact le_trans h3 (le_max_right a m)

theorem listMinInt_le_max (l : List Int) (h : l ≠ []) :
    ∀ a b, listMinInt l = some a → listMaxInt l = some b → a ≤ b := by
  cases l with
  | nil => exact absurd rfl h
  | cons x t =>
    intro a b ha hb
    have hmem : x ∈ x :: t := List.mem_cons_self x t
    have hxb : x ≤ b := listMaxInt_ge (x :: t) b hb x hmem
    -- a ≤ x : the min never exceeds the head
    have hax : a ≤ x := by
      rw [listMinInt] at ha
      rcases ht : listMinInt t with _ | m <;> rw [ht] at ha <;> simp at ha <;> omega
    omega

theorem jobsMin_le_jobsMax (jobs : List JobT) (h : jobs ≠ []) : jobsMin jobs ≤ jobsMax jobs := by
  have hm : jobs.map (fun j => j.jobID) ≠ [] := by simp [h]
  obtain ⟨a, ha⟩ := listMinInt_of_ne_nil _ hm
  obtain ⟨b, hb⟩ := listMaxInt_of_ne_nil _ hm
  have := listMinInt_le_max _ hm a b ha hb
  simp [jobsMin, jobsMax, ha, hb]
  omega

theorem mem_le_jobsMax (jobs : List JobT) (j : JobT) (hj : j ∈ jobs) : j.jobID ≤ jobsMax jobs := by
  have hm : jobs.map (fun j => j.jobID) ≠ [] := by
    cases jobs with
    | nil => simp at hj
    | cons a t => simp
  obtain ⟨b, hb⟩ := listMaxInt_of_ne_nil _ hm
  have : j.jobID ≤ b :=
    listMaxInt_ge _ b hb j.jobID (List.mem_map.mpr ⟨j, hj, rfl⟩)
  simp [jobsMax, hb]
  omega

/-- Structural well-formedness of a catalog as rangeGo checks it: every
shard has a non-empty index, every non-last shard has jobs, and each
non-last, non-first shard's minimum exceeds the previous maximum
(invariants 1-2 of the engine). -/
def rangeGoOK : List (dataSetT × List JobT) → Nat → Int → Bool
  | [], _, _ => true
  | p :: rest, idx, prevMax =>
    (p.1.index != "")
    && (rest.isEmpty
        || (!p.2.isEmpty && (idx == 0 || decide (prevMax < jobsMin p.2))
            && rangeGoOK rest (idx + 1) (jobsMax p.2)))

/-- Strengthened well-formedness covering the last shard too: used for
the roll-over, where the old newest shard becomes non-last. -/
def catStrongOK : List (dataSetT × List JobT) → Nat → Int → Bool
  | [], _, _ => true
  | p :: rest, idx, prevMax =>
    (p.1.index != "") && !p.2.isEmpty && (idx == 0 || decide (prevMax < jobsMin p.2))
    && catStrongOK rest (idx + 1) (jobsMax p.2)

theorem rangeGoOK_append (l : List (dataSetT × List JobT)) (q : dataSetT × List JobT)
    (hq : q.1.index ≠ "") :
    ∀ idx pm, catStrongOK l idx pm = true → rangeGoOK (l ++ [q]) idx pm = true := by
  induction l with
  | nil =>
    intro idx pm _
    simp [rangeGoOK, hq]
  | cons p rest ih =>
    intro idx pm h
    simp only [catStrongOK, Bool.and_eq_true] at h
    obtain ⟨⟨⟨h1, h2⟩, h3⟩, h4⟩ := h
    simp only [List.cons_append, rangeGoOK, Bool.and_eq_true, Bool.or_eq_true]
    refine ⟨h1, Or.inr ⟨⟨h2, (Bool.or_eq_true _ _).mp h3⟩, ih (idx + 1) (jobsMax p.2) h4⟩⟩

theorem rangeGo_cons (k : dataSetT) (jobs : List JobT) (rest : List (dataSetT × List JobT))
    (idx : Nat) (prevMax : Int) :
    rangeGo ((k, jobs) :: rest) idx prevMax =
      (if k.index = "" then none
       else
         if rest.isEmpty then some ([], [k])
         else
           match listMinInt (jobs.map (fun j => j.jobID)),
                 listMaxInt (jobs.map (fun j => j.jobID)) with
           | some mnv, some mxv =>
             if idx = 0 ∨ prevMax < mnv then
               match rangeGo rest (idx + 1) mxv with
               | none => none
               | some (rl, lg) => some (⟨mnv, mxv, k⟩ :: rl, k :: lg)
             else none
           | _, _ => none) := rfl

theorem rangeGo_spec (l : List (dataSetT × List JobT)) :
    ∀ (idx : Nat) (prevMax : Int), rangeGoOK l idx prevMax = true →
    rangeGo l idx prevMax =
      some ((l.dropLast).map (fun p => ⟨jobsMin p.2, jobsMax p.2, p.1⟩),
            l.map (fun p => p.1)) := by
  induction l with
  | nil =>
    intro idx prevMax _
    simp [rangeGo]
  | cons p rest ih =>
    intro idx prevMax h
    obtain ⟨k, jobs⟩ := p
    simp only [rangeGoOK, Bool.and_eq_true, Bool.or_eq_true] at h
    obtain ⟨h1, h2⟩ := h
    have hk : ¬ k.index = "" := by simpa using h1
    cases rest with
    | nil => simp [rangeGo, hk]
    | cons r t =>
      rcases h2 with h2 | ⟨⟨hne, hcond⟩, hrec⟩
      · simp at h2
      · have hjobs : jobs ≠ [] := by simpa using hne
        have hm : jobs.map (fun j => j.jobID) ≠ [] := by simp [hjobs]
        obtain ⟨a, ha⟩ := listMinInt_of_ne_nil _ hm
        obtain ⟨b, hb⟩ := listMaxInt_of_ne_nil _ hm
        have hmina : jobsMin jobs = a := by simp [jobsMin, ha]
        have hmaxb : jobsMax jobs = b := by simp [jobsMax, hb]
        have hcond2 : idx = 0 ∨ prevMax < a := by
          rcases hcond with hc | hc
          · left; simpa using hc
          · right; rw [← hmina]; simpa using hc
        have hrec2 := ih (idx + 1) (jobsMax jobs) hrec
        rw [hmaxb] at hrec2
        rw [rangeGo_cons, if_neg hk]
        rw [if_neg (by simp : ¬ ((r :: t).isEmpty = true))]
        rw [ha, hb]
        simp only []
        rw [if_pos hcond2, hrec2]
        simp [List.dropLast, hmina, hmaxb]

/-- C7 (amended): getDSRangeList with refresh issues the
MIN(job_id)/MAX(job_id) probe against every shard in the list, the last
one included (its result is simply not recorded); for every non-last
shard it asserts both values non-null and the minimum strictly above
the previous shard's maximum, and it returns one range entry for every
shard except the newest, so the range list is exactly one shorter than
the shard list. -/
theorem getDSRangeList_spec (catalog : List (dataSetT × List JobT))
    (h : rangeGoOK catalog 0 0 = true) :
    getDSRangeList catalog =
      some ((catalog.dropLast).map (fun p => ⟨jobsMin p.2, jobsMax p.2, p.1⟩),
            catalog.map (fun p => p.1))
    ∧ ((catalog.dropLast).map
        (fun p => (⟨jobsMin p.2, jobsMax p.2, p.1⟩ : dataSetRangeT))).length
        = catalog.length - 1 := by
  refine ⟨rangeGo_spec catalog 0 0 h, ?_⟩
  simp [List.length_dropLast]

def exCat2 : List (dataSetT × List JobT) :=
  [(exK1, [exJob 1 "A", exJob 2 "A"]), (exK2, [exJob 5 "A"])]

theorem getDSRangeList_spec_witness :
    getDSRangeList exCat2 = some ([⟨1, 2, exK1⟩], [exK1, exK2]) :=
  ((getDSRangeList_spec exCat2 (by decide)).1).trans (by decide)

/-- C7 counterexample: on a two-shard catalog the MIN/MAX query is
issued against both shards: the query log of getDSRangeList is
[shard1, shard2], which contains the last shard, contradicting the
claim that the query is issued only for shards other than the last
one. -/
theorem getDSRangeList_queries_last_shard :
    (getDSRangeList exCat2).map (fun p => p.2) = some [exK1, exK2]
    ∧ exCat2.getLast? = some (exK2, [exJob 5 "A"])
    ∧ exK2 ∈ [exK1, exK2] := by decide

theorem natToStrAux_ne_nil (fuel n : Nat) : natToStrAux (fuel + 1) n ≠ [] := by
  rw [natToStrAux]
  by_cases h : n < 10 <;> simp [h]

theorem natToStr_ne_empty (n : Nat) : natToStr n ≠ "" := by
  intro hc
  have h := natToStrAux_ne_nil n n
  apply h
  have : (natToStr n).data = "".data := by rw [hc]
  simpa [natToStr] using this

theorem catStrongOK_bounds (l : List (dataSetT × List JobT)) :
    ∀ idx pm, catStrongOK l idx pm = true →
    ∀ q, l.getLast? = some q →
    (∀ p ∈ l, jobsMax p.2 ≤ jobsMax q.2)
    ∧ (∀ p ∈ l, ∀ j ∈ p.2, j.jobID ≤ jobsMax q.2) := by
  induction l with
  | nil =>
    intro idx pm _ q hq
    simp at hq
  | cons p rest ih =>
    intro idx pm h q hq
    simp only [catStrongOK, Bool.and_eq_true] at h
    obtain ⟨⟨⟨h1, h2⟩, h3⟩, h4⟩ := h
    cases rest with
    | nil =>
      simp at hq
      constructor
      · intro x hx
        simp at hx
        subst hx
        rw [← hq]
      · intro x hx j hj
        simp at hx
        subst hx
        rw [← hq]
        exact mem_le_jobsMax _ _ hj
    | cons r t =>
      have hq2 : (r :: t).getLast? = some q := by
        simpa [List.getLast?_cons_cons] using hq
      obtain ⟨ihA, ihB⟩ := ih (idx + 1) (jobsMax p.2) h4 q hq2
      have hhead := h4
      simp only [catStrongOK, Bool.and_eq_true] at hhead
      obtain ⟨⟨⟨_, hrne⟩, hc⟩, _⟩ := hhead
      have hrne2 : r.2 ≠ [] := by simpa using hrne
      have hlink : jobsMax p.2 < jobsMin r.2 := by
        rcases (Bool.or_eq_true _ _).mp hc with hc2 | hc2
        · simp at hc2
        · simpa using hc2
      have hrq : jobsMax r.2 ≤ jobsMax q.2 := ihA r (by simp)
      have hpq : jobsMax p.2 ≤ jobsMax q.2 :=
        le_trans (le_of_lt hlink) (le_trans (jobsMin_le_jobsMax r.2 hrne2) hrq)
      constructor
      · intro x hx
        rcases List.mem_cons.mp hx with hx | hx
        · subst hx; exact hpq
        · exact ihA x hx
      · intro x hx j hj
        rcases List.mem_cons.mp hx with hx | hx
        · subst hx; exact le_trans (mem_le_jobsMax _ _ hj) hpq
        · exact ihB x hx j hj

/-- C2 (amended): when addNewDS appends a new level-0 shard to a
well-formed non-empty catalog, it issues `setval` on the new jobs
sequence with the previous shard's maximum job_id itself (not one past
it); since `nextval` then returns the successor, the first job stored
in the new shard is assigned job_id one past the previous shard's
maximum, which is above every job_id in the catalog, keeping
identifiers globally monotonic. -/
theorem addNewDS_appendLast_spec (pfx : String) (cat0 : List (dataSetT × DataSet))
    (lastK : dataSetT) (lastD : DataSet) (n : Nat)
    (hlvl : mapDSToLevel lastK = some (1, [n]))
    (hstrong : catStrongOK ((cat0 ++ [(lastK, lastD)]).map (fun p => (p.1, p.2.jobs))) 0 0 = true)
    (hpos : 0 < jobsMax lastD.jobs) :
    ∃ newKey : dataSetT,
      newKey.index = natToStr (n + 1)
      ∧ newKey.jobTable = pfx ++ "_jobs_" ++ natToStr (n + 1)
      ∧ addNewDSAppendLast pfx (cat0 ++ [(lastK, lastD)]) =
          some (cat0 ++ [(lastK, lastD),
                (newKey, { emptyDS with jobSeq := jobsMax lastD.jobs })],
                some (jobsMax lastD.jobs))
      ∧ (∀ (j : JobT) (js : List JobT) (cache : CacheT),
          ((storeJobsDS newKey { emptyDS with jobSeq := jobsMax lastD.jobs } cache false
            (j :: js)).1.jobs.head? = some { j with jobID := jobsMax lastD.jobs + 1 }))
      ∧ (∀ p ∈ cat0 ++ [(lastK, lastD)], ∀ j ∈ p.2.jobs, j.jobID < jobsMax lastD.jobs + 1) := by
  have hidx := natToStr_ne_empty (n + 1)
  have hsplit : ((cat0 ++ [(lastK, lastD)]).map (fun p => (p.1, p.2.jobs))) =
      (cat0.map (fun p => (p.1, p.2.jobs))) ++ [(lastK, lastD.jobs)] := by simp
  have hlastq : ((cat0 ++ [(lastK, lastD)]).map (fun p => (p.1, p.2.jobs))).getLast? =
      some (lastK, lastD.jobs) := by
    rw [hsplit, List.getLast?_concat]
  refine ⟨⟨pfx ++ "_jobs_" ++ natToStr (n + 1), pfx ++ "_job_status_" ++ natToStr (n + 1),
          natToStr (n + 1)⟩, rfl, rfl, ?_, ?_, ?_⟩
  · have hmap : ((cat0 ++ [(lastK, lastD)]) ++
        [((⟨pfx ++ "_jobs_" ++ natToStr (n + 1), pfx ++ "_job_status_" ++ natToStr (n + 1),
          natToStr (n + 1)⟩ : dataSetT), emptyDS)]).map (fun p => (p.1, p.2.jobs)) =
        ((cat0 ++ [(lastK, lastD)]).map (fun p => (p.1, p.2.jobs))) ++
        [((⟨pfx ++ "_jobs_" ++ natToStr (n + 1), pfx ++ "_job_status_" ++ natToStr (n + 1),
          natToStr (n + 1)⟩ : dataSetT), ([] : List JobT))] := by
      simp [emptyDS]
    have hok := rangeGoOK_append ((cat0 ++ [(lastK, lastD)]).map (fun p => (p.1, p.2.jobs)))
      ((⟨pfx ++ "_jobs_" ++ natToStr (n + 1), pfx ++ "_job_status_" ++ natToStr (n + 1),
        natToStr (n + 1)⟩ : dataSetT), ([] : List JobT)) hidx 0 0 hstrong
    have hrg := rangeGo_spec _ 0 0 hok
    have hranges : (((cat0 ++ [(lastK, lastD)]).map (fun p => (p.1, p.2.jobs))) ++
        [((⟨pfx ++ "_jobs_" ++ natToStr (n + 1), pfx ++ "_job_status_" ++ natToStr (n + 1),
          natToStr (n + 1)⟩ : dataSetT), ([] : List JobT))]).dropLast =
        (cat0 ++ [(lastK, lastD)]).map (fun p => (p.1, p.2.jobs)) :=
      List.dropLast_concat ..
    rw [hranges] at hrg
    simp only [addNewDSAppendLast, List.getLast?_concat, hlvl, createTableNames, getDSRangeList]
    rw [hmap]
    simp only [hrg]
    have hlast : (((cat0 ++ [(lastK, lastD)]).map (fun p => (p.1, p.2.jobs))).map
        (fun p => (⟨jobsMin p.2, jobsMax p.2, p.1⟩ : dataSetRangeT))).getLast? =
        some ⟨jobsMin lastD.jobs, jobsMax lastD.jobs, lastK⟩ := by
      rw [hsplit, List.map_append]
      simp only [List.map_cons, List.map_nil]
      rw [List.getLast?_concat]
    simp only [hlast, if_pos hpos]
    simp
  · intro j js cache
    simp [storeJobsDS, storePlain, assignJobIds, emptyDS]
  · intro p hp j hj
    have hb := (catStrongOK_bounds ((cat0 ++ [(lastK, lastD)]).map (fun p => (p.1, p.2.jobs)))
      0 0 hstrong (lastK, lastD.jobs) hlastq).2
    have hmem : (p.1, p.2.jobs) ∈ (cat0 ++ [(lastK, lastD)]).map (fun p => (p.1, p.2.jobs)) :=
      List.mem_map.mpr ⟨p, hp, rfl⟩
    have hle := hb (p.1, p.2.jobs) hmem j hj
    have h2 : jobsMax ((lastK, lastD.jobs).2) = jobsMax lastD.jobs := rfl
    rw [h2] at hle
    omega

def exDS1 : DataSet :=
  { jobs := [exJob 3 "A", exJob 5 "A"], statusRows := [], jobSeq := 5, statusSeq := 0 }

def exCat1 : List (dataSetT × DataSet) := [(exK1, exDS1)]

/-- C2 counterexample: on a one-shard catalog whose jobs table holds
job_ids 3 and 5, addNewDS issues setval with value 5, the previous
shard's maximum job_id itself, not one past it (6): the claim's stated
setval argument is wrong (the first job then stored still receives
5 + 1, because nextval returns the successor of the value set). -/
theorem addNewDS_setval_arg_not_one_past :
    (addNewDSAppendLast "t" exCat1).map (fun p => p.2) = some (some 5)
    ∧ jobsMax exDS1.jobs = 5
    ∧ ((5 : Int) ≠ 5 + 1) := by decide

theorem addNewDS_appendLast_spec_witness :
    ∃ newKey : dataSetT,
      addNewDSAppendLast "t" exCat1 =
        some (exCat1 ++ [(newKey, { emptyDS with jobSeq := 5 })], some 5) := by
  obtain ⟨newKey, _, _, h3, _, _⟩ :=
    addNewDS_appendLast_spec "t" [] exK1 exDS1 1 (by decide) (by decide) (by decide)
  have hm : jobsMax exDS1.jobs = 5 := by decide
  rw [hm] at h3
  exact ⟨newKey, by simpa [exCat1] using h3⟩

/-! C3: UpdateJobStatus routing. -/

instance : IsTotal JobStatusT statusJobIdLE := ⟨fun a b => le_total a.jobID b.jobID⟩

instance : IsTrans JobStatusT statusJobIdLE := ⟨fun _ _ _ hab hbc => le_trans hab hbc⟩

theorem sorted_head_le (s0 : JobStatusT) (rest2 : List JobStatusT)
    (hs : List.Sorted statusJobIdLE (s0 :: rest2)) :
    ∀ s ∈ s0 :: rest2, s0.jobID ≤ s.jobID := by
  intro s hmem
  rcases List.mem_cons.mp hmem with h | h
  · subst h; exact le_refl _
  · exact (List.sorted_cons.mp hs).1 s h

theorem dropWhile_all_gt (mx : Int) (l : List JobStatusT)
    (hs : List.Sorted statusJobIdLE l) :
    ∀ s ∈ l.dropWhile (fun s => decide (s.jobID ≤ mx)), mx < s.jobID := by
  induction l with
  | nil => simp
  | cons a t ih =>
    intro s hsmem
    rw [List.dropWhile_cons] at hsmem
    by_cases ha : a.jobID ≤ mx
    · rw [if_pos (by simpa using ha)] at hsmem
      exact ih (List.sorted_cons.mp hs).2 s hsmem
    · rw [if_neg (by simpa using ha)] at hsmem
      rcases List.mem_cons.mp hsmem with h | h
      · subst h; omega
      · have h2 : statusJobIdLE a s := (List.sorted_cons.mp hs).1 s h
        have h3 : a.jobID ≤ s.jobID := h2
        omega

theorem chain_ranges_lt (r : dataSetRangeT) (rs : List dataSetRangeT)
    (hmm : ∀ r1 ∈ r :: rs, r1.minJobID ≤ r1.maxJobID)
    (hch : List.Chain' (fun a b => a.maxJobID < b.minJobID) (r :: rs)) :
    ∀ r1 ∈ rs, r.maxJobID < r1.minJobID := by
  induction rs generalizing r with
  | nil => simp
  | cons b t ih =>
    intro r1 hr1
    have hrb : r.maxJobID < b.minJobID := (List.chain'_cons.mp hch).1
    rcases List.mem_cons.mp hr1 with h | h
    · subst h; exact hrb
    · have hbt : List.Chain' (fun a b => a.maxJobID < b.minJobID) (b :: t) :=
        (List.chain'_cons.mp hch).2
      have h4 := ih b (fun x hx => hmm x (List.mem_cons_of_mem _ hx)) hbt r1 h
      have hb := hmm b (by simp)
      omega

theorem routeLoop_spec (lastDS : dataSetT) (ranges : List dataSetRangeT) :
    ∀ (rest : List JobStatusT),
    List.Sorted statusJobIdLE rest →
    (∀ r1 ∈ ranges, r1.minJobID ≤ r1.maxJobID) →
    List.Chain' (fun a b => a.maxJobID < b.minJobID) ranges →
    (∀ s ∈ rest, (∃ r1 ∈ ranges, r1.minJobID ≤ s.jobID ∧ s.jobID ≤ r1.maxJobID) ∨
                 (∀ r1 ∈ ranges, r1.maxJobID < s.jobID)) →
    (rest = [] → ranges = []) →
    ∃ calls, routeLoop lastDS ranges rest = some calls
      ∧ (calls.map (fun c => c.2)).flatten = rest
      ∧ ∀ c ∈ calls,
          (∃ r1 ∈ ranges, c.1 = r1.ds ∧ ∀ s ∈ c.2, r1.minJobID ≤ s.jobID ∧ s.jobID ≤ r1.maxJobID)
          ∨ (c.1 = lastDS ∧ ∀ s ∈ c.2, ∀ r1 ∈ ranges, r1.maxJobID < s.jobID) := by
  induction ranges with
  | nil =>
    intro rest _ _ _ _ _
    cases rest with
    | nil => exact ⟨[], by simp [routeLoop], by simp, by simp⟩
    | cons s0 rest2 =>
      refine ⟨[(lastDS, s0 :: rest2)], by simp [routeLoop], by simp, ?_⟩
      intro c hc
      simp at hc
      subst hc
      exact Or.inr ⟨rfl, by simp⟩
  | cons r rs ih =>
    intro rest hsorted hmm hch hcov hne
    cases rest with
    | nil => exact absurd (hne rfl) (by simp)
    | cons s0 rest2 =>
      have hrsmm : ∀ r1 ∈ rs, r1.minJobID ≤ r1.maxJobID :=
        fun r1 h => hmm r1 (List.mem_cons_of_mem _ h)
      have hrslt : ∀ r1 ∈ rs, r.maxJobID < r1.minJobID := chain_ranges_lt r rs hmm hch
      have hs0 : r.minJobID ≤ s0.jobID := by
        rcases hcov s0 (by simp) with ⟨r1, hr1, hmin, hmax⟩ | hall
        · rcases List.mem_cons.mp hr1 with h | h
          · subst h; exact hmin
          · have := hrslt r1 h
            have := hmm r (by simp)
            omega
        · have := hall r (by simp)
          have := hmm r (by simp)
          omega
      have hbatch_le : ∀ s ∈ (s0 :: rest2).takeWhile (fun s => decide (s.jobID ≤ r.maxJobID)),
          s.jobID ≤ r.maxJobID := by
        intro s hsm
        have := List.mem_takeWhile_imp hsm
        simpa using this
      have hbatch_ge : ∀ s ∈ (s0 :: rest2).takeWhile (fun s => decide (s.jobID ≤ r.maxJobID)),
          r.minJobID ≤ s.jobID := by
        intro s hsm
        have hsub : s ∈ s0 :: rest2 := (List.takeWhile_sublist _).mem hsm
        have := sorted_head_le s0 rest2 hsorted s hsub
        omega
      have hdrop_gt : ∀ s ∈ (s0 :: rest2).dropWhile (fun s => decide (s.jobID ≤ r.maxJobID)),
          r.maxJobID < s.jobID := dropWhile_all_gt r.maxJobID (s0 :: rest2) hsorted
      simp only [routeLoop]
      rw [if_neg (by omega : ¬ s0.jobID < r.minJobID)]
      by_cases hre : ((s0 :: rest2).dropWhile (fun s => decide (s.jobID ≤ r.maxJobID))).isEmpty
      · rw [if_pos hre]
        have hdeq : (s0 :: rest2).takeWhile (fun s => decide (s.jobID ≤ r.maxJobID)) = s0 :: rest2 := by
          have h0 := List.takeWhile_append_dropWhile
            (p := fun s => decide (s.jobID ≤ r.maxJobID)) (l := s0 :: rest2)
          have h1 : (s0 :: rest2).dropWhile (fun s => decide (s.jobID ≤ r.maxJobID)) = [] := by
            simpa using hre
          rw [h1] at h0
          simpa using h0
        refine ⟨[(r.ds, (s0 :: rest2).takeWhile (fun s => decide (s.jobID ≤ r.maxJobID)))],
          rfl, by simp [hdeq], ?_⟩
        intro c hc
        simp at hc
        subst hc
        exact Or.inl ⟨r, by simp, rfl, fun s hs => ⟨hbatch_ge s hs, hbatch_le s hs⟩⟩
      · rw [if_neg hre]
        have hrest2ne : (s0 :: rest2).dropWhile (fun s => decide (s.jobID ≤ r.maxJobID)) ≠ [] := by
          simpa using hre
        have hsorted2 : List.Sorted statusJobIdLE
            ((s0 :: rest2).dropWhile (fun s => decide (s.jobID ≤ r.maxJobID))) :=
          hsorted.sublist (List.dropWhile_sublist _)
        have hch2 : List.Chain' (fun a b => a.maxJobID < b.minJobID) rs := hch.tail
        have hcov2 : ∀ s ∈ (s0 :: rest2).dropWhile (fun s => decide (s.jobID ≤ r.maxJobID)),
            (∃ r1 ∈ rs, r1.minJobID ≤ s.jobID ∧ s.jobID ≤ r1.maxJobID) ∨
            (∀ r1 ∈ rs, r1.maxJobID < s.jobID) := by
          intro s hsm
          have hgt := hdrop_gt s hsm
          have hmem : s ∈ s0 :: rest2 := (List.dropWhile_sublist _).mem hsm
          rcases hcov s hmem with ⟨r1, hr1, hmin, hmax⟩ | hall
          · rcases List.mem_cons.mp hr1 with h | h
            · subst h; omega
            · exact Or.inl ⟨r1, h, hmin, hmax⟩
          · exact Or.inr (fun r1 h => hall r1 (List.mem_cons_of_mem _ h))
        obtain ⟨more, hmore, hflat, hcalls⟩ :=
          ih ((s0 :: rest2).dropWhile (fun s => decide (s.jobID ≤ r.maxJobID)))
            hsorted2 hrsmm hch2 hcov2 (fun h => absurd h hrest2ne)
        rw [hmore]
        refine ⟨(r.ds, (s0 :: rest2).takeWhile (fun s => decide (s.jobID ≤ r.maxJobID))) :: more,
          rfl, ?_, ?_⟩
        · simp only [List.map_cons, List.flatten_cons, hflat]
          exact List.takeWhile_append_dropWhile ..
        · intro c hc
          rcases List.mem_cons.mp hc with hceq | hcm
          · subst hceq
            exact Or.inl ⟨r, by simp, rfl, fun s hs => ⟨hbatch_ge s hs, hbatch_le s hs⟩⟩
          · rcases hcalls c hcm with ⟨r1, hr1, hds, hwithin⟩ | ⟨hds, habove⟩
            · exact Or.inl ⟨r1, List.mem_cons_of_mem _ hr1, hds, hwithin⟩
            · refine Or.inr ⟨hds, ?_⟩
              intro s hs r1 hr1
              rcases List.mem_cons.mp hr1 with hreq | hrm
              · have hsm : s ∈ (more.map (fun c => c.2)).flatten :=
                  List.mem_flatten.mpr ⟨c.2, List.mem_map.mpr ⟨c, hcm, rfl⟩, hs⟩
                rw [hflat] at hsm
                have := hdrop_gt s hsm
                rw [hreq]
                exact this
              · exact habove s hs r1 hrm

/-- C3 (amended): for every non-empty input batch whose job_ids each
lie inside some shard's range or above all ranges, UpdateJobStatus
sorts the status rows by job_id, partitions the sorted list against the
in-memory range list, appends each sub-batch whose job_ids fall inside
a shard's [minJobID, maxJobID] range to that shard in its own per-shard
updateJobStatusDS call, and appends the tail of rows whose job_ids lie
above all known ranges to the newest shard; no single call (hence no
single transaction) spans two shards.  (An empty batch with a non-empty
range list panics instead: see the counterexample.) -/
theorem updateJobStatus_routing (rangeList : List dataSetRangeT) (lastDS : dataSetT)
    (statusList : List JobStatusT)
    (hmm : ∀ r ∈ rangeList, r.minJobID ≤ r.maxJobID)
    (hch : List.Chain' (fun a b => a.maxJobID < b.minJobID) rangeList)
    (hcov : ∀ s ∈ statusList,
      (∃ r ∈ rangeList, r.minJobID ≤ s.jobID ∧ s.jobID ≤ r.maxJobID) ∨
      (∀ r ∈ rangeList, r.maxJobID < s.jobID))
    (hne : statusList = [] → rangeList = []) :
    ∃ calls, updateJobStatusRoute rangeList lastDS statusList = some calls
      ∧ (calls.map (fun c => c.2)).flatten = List.insertionSort statusJobIdLE statusList
      ∧ (List.insertionSort statusJobIdLE statusList).Perm statusList
      ∧ ∀ c ∈ calls,
          (∃ r ∈ rangeList, c.1 = r.ds ∧ ∀ s ∈ c.2, r.minJobID ≤ s.jobID ∧ s.jobID ≤ r.maxJobID)
          ∨ (c.1 = lastDS ∧ ∀ s ∈ c.2, ∀ r ∈ rangeList, r.maxJobID < s.jobID) := by
  have hperm : (List.insertionSort statusJobIdLE statusList).Perm statusList :=
    List.perm_insertionSort statusJobIdLE statusList
  have hsorted : List.Sorted statusJobIdLE (List.insertionSort statusJobIdLE statusList) :=
    List.sorted_insertionSort statusJobIdLE statusList
  have hcov2 : ∀ s ∈ List.insertionSort statusJobIdLE statusList,
      (∃ r ∈ rangeList, r.minJobID ≤ s.jobID ∧ s.jobID ≤ r.maxJobID) ∨
      (∀ r ∈ rangeList, r.maxJobID < s.jobID) :=
    fun s hs => hcov s (hperm.mem_iff.mp hs)
  have hne2 : List.insertionSort statusJobIdLE statusList = [] → rangeList = [] := by
    intro h
    exact hne (List.eq_nil_of_length_eq_zero (by
      have := hperm.length_eq
      rw [h] at this
      simpa using this.symm))
  obtain ⟨calls, h1, h2, h3⟩ :=
    routeLoop_spec lastDS rangeList (List.insertionSort statusJobIdLE statusList)
      hsorted hmm hch hcov2 hne2
  exact ⟨calls, h1, h2, hperm, h3⟩

/-- C3 counterexample: with a well-formed non-empty range list and an
empty status batch, UpdateJobStatus does not perform the (trivial)
partition: it panics on the initial range assertion, so there is no
sequence of per-shard calls at all. -/
theorem updateJobStatus_routing_empty_batch_panics :
    (∀ r ∈ [(⟨1, 10, exK1⟩ : dataSetRangeT), ⟨11, 20, exK2⟩], r.minJobID ≤ r.maxJobID)
    ∧ updateJobStatusRoute [⟨1, 10, exK1⟩, ⟨11, 20, exK2⟩] exK3 [] = none := by decide

theorem updateJobStatus_routing_witness :
    ∃ calls, updateJobStatusRoute [⟨1, 10, exK1⟩, ⟨11, 20, exK2⟩] exK3
        [exStatus 15 "failed" 0, exStatus 3 "failed" 0, exStatus 25 "executing" 0] = some calls
      ∧ (calls.map (fun c => c.2)).flatten = List.insertionSort statusJobIdLE
          [exStatus 15 "failed" 0, exStatus 3 "failed" 0, exStatus 25 "executing" 0] := by
  obtain ⟨calls, h1, h2, _, _⟩ :=
    updateJobStatus_routing [⟨1, 10, exK1⟩, ⟨11, 20, exK2⟩] exK3
      [exStatus 15 "failed" 0, exStatus 3 "failed" 0, exStatus 25 "executing" 0]
      (by decide) (List.chain'_cons.mpr ⟨by decide, List.chain'_singleton _⟩)
      (by decide) (by decide)
  exact ⟨calls, h1, h2⟩

/-! C1: compaction migration.  Helper lemmas about the latest-status
subquery. -/

theorem filter_eq_singleton_of_unique {α : Type} (l : List α) (p : α → Bool) (r : α)
    (hl : l.Nodup) (hr : r ∈ l) (hpr : p r = true)
    (huniq : ∀ q ∈ l, p q = true → q = r) : l.filter p = [r] := by
  induction l with
  | nil => simp at hr
  | cons a t ih =>
    rcases List.mem_cons.mp hr with heq | hmem
    · subst heq
      rw [List.filter_cons, if_pos hpr]
      have ht : t.filter p = [] := by
        rw [List.filter_eq_nil_iff]
        intro q hq hpq
        have := huniq q (List.mem_cons_of_mem _ hq) hpq
        subst this
        exact (List.nodup_cons.mp hl).1 hq
      rw [ht]
    · have hane : p a = false := by
        by_contra hpa
        have hpa2 : p a = true := by
          cases h : p a
          · exact absurd h hpa
          · rfl
        have := huniq a (by simp) hpa2
        subst this
        exact (List.nodup_cons.mp hl).1 hmem
      rw [List.filter_cons, hane]
      simp only [Bool.false_eq_true, if_false]
      exact ih (List.nodup_cons.mp hl).2 hmem
        (fun q hq hpq => huniq q (List.mem_cons_of_mem _ hq) hpq)

theorem listMaxInt_mem (l : List Int) : ∀ v, listMaxInt l = some v → v ∈ l := by
  induction l with
  | nil => intro v hv; simp [listMaxInt] at hv
  | cons a t ih =>
    intro v hv
    rw [listMaxInt] at hv
    rcases ht : listMaxInt t with _ | m <;> rw [ht] at hv <;> simp at hv
    · subst hv; simp
    · rcases le_total a m with h | h
      · have : max a m = m := max_eq_right h
        rw [this] at hv
        subst hv
        exact List.mem_cons_of_mem _ (ih m ht)
      · have : max a m = a := max_eq_left h
        rw [this] at hv
        subst hv
        simp

theorem groupMaxId_spec (rows : List StatusRow) (g : Int) (v : Int)
    (h : groupMaxId rows g = some v) :
    (∃ q ∈ rows, q.st.jobID = g ∧ q.rid = v)
    ∧ (∀ q ∈ rows, q.st.jobID = g → q.rid ≤ v) := by
  constructor
  · have hmem := listMaxInt_mem _ v h
    obtain ⟨q, hq, hrid⟩ := List.mem_map.mp hmem
    have hq2 := List.mem_filter.mp hq
    refine ⟨q, hq2.1, by simpa using hq2.2, hrid⟩
  · intro q hq hg
    have hmem : q.rid ∈ (rows.filter (fun r => r.st.jobID == g)).map (fun r => r.rid) :=
      List.mem_map.mpr ⟨q, List.mem_filter.mpr ⟨hq, by simpa using hg⟩, rfl⟩
    exact listMaxInt_ge _ v h q.rid hmem

theorem mem_groupMaxIds (rows : List StatusRow) (v : Int) :
    v ∈ groupMaxIds rows ↔ ∃ g ∈ (rows.map (fun r => r.st.jobID)).dedup,
      groupMaxId rows g = some v := by
  simp [groupMaxIds, List.mem_filterMap]

/-- With distinct status-row ids, a row of the latest-status subquery
result is exactly the maximal row of its own job_id group. -/
theorem latest_rid_eq (rows : List StatusRow)
    (hnod : (rows.map (fun r => r.rid)).Nodup) (q : StatusRow)
    (hq : q ∈ latestStatusRows rows) : groupMaxId rows q.st.jobID = some q.rid := by
  have hq2 := List.mem_filter.mp hq
  have hqrows : q ∈ rows := hq2.1
  have hqmax : q.rid ∈ groupMaxIds rows := by simpa using hq2.2
  obtain ⟨g, _, hgm⟩ := (mem_groupMaxIds rows q.rid).mp hqmax
  obtain ⟨⟨w, hw, hwg, hwr⟩, _⟩ := groupMaxId_spec rows g q.rid hgm
  have hwq : w = q := List.inj_on_of_nodup_map hnod hw hqrows hwr
  subst hwq
  subst hwg
  exact hgm

theorem latest_unique (rows : List StatusRow)
    (hnod : (rows.map (fun r => r.rid)).Nodup) (q1 q2 : StatusRow)
    (h1 : q1 ∈ latestStatusRows rows) (h2 : q2 ∈ latestStatusRows rows)
    (hjid : q1.st.jobID = q2.st.jobID) : q1 = q2 := by
  have e1 := latest_rid_eq rows hnod q1 h1
  have e2 := latest_rid_eq rows hnod q2 h2
  rw [hjid] at e1
  rw [e2] at e1
  have hr : q2.rid = q1.rid := by simpa using e1
  exact (List.inj_on_of_nodup_map hnod
    (List.mem_filter.mp h2).1 (List.mem_filter.mp h1).1 hr).symm

theorem mem_dbGetProcessedAll (s : DataSet) (S : List String) (pr : JobT × StatusRow)
    (h : pr ∈ dbGetProcessedAll s S) :
    pr.1 ∈ s.jobs ∧ pr.2 ∈ latestStatusRows s.statusRows
    ∧ pr.2.st.jobID = pr.1.jobID
    ∧ (S.isEmpty || S.contains pr.2.st.jobState) = true := by
  simp only [dbGetProcessedAll] at h
  obtain ⟨li, hli, hpr⟩ := List.mem_flatten.mp h
  obtain ⟨j, hj, hlj⟩ := List.mem_map.mp hli
  subst hlj
  obtain ⟨r, hr, hrp⟩ := List.mem_map.mp hpr
  have hr2 := List.mem_filter.mp hr
  subst hrp
  simp only [Bool.and_eq_true] at hr2
  obtain ⟨hrl, hjid, hstate⟩ := hr2
  exact ⟨hj, hrl, by simpa using hjid, hstate⟩

theorem flatten_filter_fst (inner : JobT → List StatusRow) (jid : Int) :
    ∀ (L : List JobT), (L.map (fun x => x.jobID)).Nodup →
    ∀ j ∈ L, j.jobID = jid →
    ((L.map (fun x => (inner x).map (fun r => (x, r)))).flatten).filter
        (fun pr => pr.1.jobID == jid)
      = (inner j).map (fun r => (j, r)) := by
  intro L
  induction L with
  | nil =>
    intro _ j hj
    simp at hj
  | cons a t ih =>
    intro hnod j hj hjid
    simp only [List.map_cons, List.flatten_cons, List.filter_append]
    rw [List.map_cons] at hnod
    have hnod2 := List.nodup_cons.mp hnod
    rcases List.mem_cons.mp hj with heq | hmem
    · subst heq
      have h1 : ((inner j).map (fun r => (j, r))).filter (fun pr => pr.1.jobID == jid)
          = (inner j).map (fun r => (j, r)) := by
        apply List.filter_eq_self.mpr
        intro pr hpr
        obtain ⟨r, _, hr⟩ := List.mem_map.mp hpr
        subst hr
        simpa using hjid
      have h2 : ((t.map (fun x => (inner x).map (fun r => (x, r)))).flatten).filter
          (fun pr => pr.1.jobID == jid) = [] := by
        rw [List.filter_eq_nil_iff]
        intro pr hpr
        obtain ⟨li, hli, hpr2⟩ := List.mem_flatten.mp hpr
        obtain ⟨x, hx, hlx⟩ := List.mem_map.mp hli
        subst hlx
        obtain ⟨r, _, hrx⟩ := List.mem_map.mp hpr2
        subst hrx
        simp only [beq_iff_eq]
        intro hcon
        apply hnod2.1
        rw [hjid, ← hcon]
        exact List.mem_map.mpr ⟨x, hx, rfl⟩
      rw [h1, h2, List.append_nil]
    · have hane : a.jobID ≠ jid := by
        intro hcon
        apply hnod2.1
        rw [hcon, ← hjid]
        exact List.mem_map.mpr ⟨j, hmem, rfl⟩
      have h1 : ((inner a).map (fun r => (a, r))).filter (fun pr => pr.1.jobID == jid) = [] := by
        rw [List.filter_eq_nil_iff]
        intro pr hpr
        obtain ⟨r, _, hr⟩ := List.mem_map.mp hpr
        subst hr
        simpa using hane
      rw [h1, ih hnod2.2 j hmem hjid, List.nil_append]

theorem flatten_filter_fst_nil (inner : JobT → List StatusRow) (jid : Int)
    (L : List JobT) (hnone : ∀ x ∈ L, x.jobID ≠ jid) :
    ((L.map (fun x => (inner x).map (fun r => (x, r)))).flatten).filter
        (fun pr => pr.1.jobID == jid) = [] := by
  rw [List.filter_eq_nil_iff]
  intro pr hpr
  obtain ⟨li, hli, hpr2⟩ := List.mem_flatten.mp hpr
  obtain ⟨x, hx, hlx⟩ := List.mem_map.mp hli
  subst hlx
  obtain ⟨r, _, hrx⟩ := List.mem_map.mp hpr2
  subst hrx
  simpa using hnone x hx

theorem dbGetUnprocessed_noFilters (s : DataSet) :
    dbGetUnprocessed s [] false 0 =
      s.jobs.filter (fun j => !(hasStatusRow s.statusRows j.jobID)) := by
  simp [dbGetUnprocessed]

theorem assignStatusIds_map_st (l : List JobStatusT) :
    ∀ seq, (assignStatusIds seq l).map (fun r => r.st) = l := by
  induction l with
  | nil => intro seq; rfl
  | cons a t ih => intro seq; simp [assignStatusIds, ih]

theorem assignStatusIds_length (l : List JobStatusT) :
    ∀ seq, (assignStatusIds seq l).length = l.length := by
  induction l with
  | nil => intro seq; rfl
  | cons a t ih => intro seq; simp [assignStatusIds, ih]

theorem isEmptyResult_nil_cvals (cache : CacheT) (ds : dataSetT) (S : List String) :
    isEmptyResult cache ds S [] = false := by
  rw [isEmptyResult]
  rcases h : alGet cache ds with _ | m
  · rfl
  · simp

/-- The jobs migrateJobs copies out of one source shard: its
unprocessed jobs followed by its unfinished (non-terminal latest
status) jobs. -/
def migJobsOf (s : DataSet) : List JobT :=
  dbGetUnprocessed s [] false 0 ++ (dbGetProcessedAll s nonTerminalStates).map (fun p => p.1)

/-- The status rows migrateJobs writes into the destination for one
source shard: the carried-over latest status of each unfinished job. -/
def migStatusOf (s : DataSet) : List JobStatusT :=
  (dbGetProcessedAll s nonTerminalStates).map carryStatus

theorem checkValidJobState_nonTerminal : checkValidJobState nonTerminalStates = true := by
  decide

theorem exists_snd_eq (P : DataSet × CacheT) (B : DataSet) (h : P.1 = B) :
    ∃ c2, P = (B, c2) := ⟨P.2, by rw [← h]⟩

theorem storeUpdate_shape (destDS : dataSetT) (dest : DataSet) (c : CacheT)
    (u : List JobT) (ga : List (JobT × StatusRow)) :
    ∃ c2, updateJobStatusDS destDS
        (storeJobsDS destDS dest c true (u ++ ga.map (fun p => p.1))).1
        (storeJobsDS destDS dest c true (u ++ ga.map (fun p => p.1))).2
        (ga.map carryStatus) [] =
      ({ dest with
          jobs := dest.jobs ++ (u ++ ga.map (fun p => p.1)),
          statusRows := dest.statusRows ++ assignStatusIds dest.statusSeq (ga.map carryStatus),
          statusSeq := dest.statusSeq + (ga.map carryStatus).length }, c2) := by
  by_cases hemp : ga.map carryStatus = []
  · rw [updateJobStatusDS, if_pos (by simp [hemp])]
    apply exists_snd_eq
    simp [storeJobsDS, storePlain, hemp, assignStatusIds]
  · rw [updateJobStatusDS, if_neg (by simp [hemp])]
    apply exists_snd_eq
    simp [storeJobsDS, storePlain, updatePlain]

theorem migrateJobs_shape (srcDS destDS : dataSetT) (src dest : DataSet) (cache : CacheT) :
    ∃ cache2, migrateJobs srcDS destDS src dest cache =
      some ({ dest with
              jobs := dest.jobs ++ migJobsOf src,
              statusRows := dest.statusRows ++
                assignStatusIds dest.statusSeq (migStatusOf src),
              statusSeq := dest.statusSeq + (migStatusOf src).length }, cache2) := by
  have hu : getUnprocessedJobsDS srcDS src cache [] false 0 =
      (dbGetUnprocessed src [] false 0,
       (if (dbGetUnprocessed src [] false 0).isEmpty then
          markClearEmptyResult cache srcDS ["NP"] [] true else cache), true) := by
    rw [getUnprocessedJobsDS, if_neg (by rw [isEmptyResult_nil_cvals]; exact Bool.false_ne_true)]
  have hg : ∀ c2 : CacheT, getProcessedJobsDS srcDS src c2 true nonTerminalStates [] 0 0 =
      some (dbGetProcessedAll src nonTerminalStates,
       (if (dbGetProcessedAll src nonTerminalStates).isEmpty then
          markClearEmptyResult c2 srcDS nonTerminalStates [] true else c2), true) := by
    intro c2
    rw [getProcessedJobsDS]
    rw [if_neg (by rw [checkValidJobState_nonTerminal]; simp)]
    rw [if_neg (by rw [isEmptyResult_nil_cvals]; exact Bool.false_ne_true)]
    simp
  rw [migrateJobs, hu]
  rw [hg]
  obtain ⟨c2, heq⟩ := storeUpdate_shape destDS dest
    (if (dbGetProcessedAll src nonTerminalStates).isEmpty then
       markClearEmptyResult (if (dbGetUnprocessed src [] false 0).isEmpty then
         markClearEmptyResult cache srcDS ["NP"] [] true else cache) srcDS nonTerminalStates [] true
     else (if (dbGetUnprocessed src [] false 0).isEmpty then
       markClearEmptyResult cache srcDS ["NP"] [] true else cache))
    (dbGetUnprocessed src [] false 0) (dbGetProcessedAll src nonTerminalStates)
  exact ⟨c2, congrArg some heq⟩

theorem migrateAll_shape (destDS : dataSetT) (sources : List (dataSetT × DataSet)) :
    ∀ (dest : DataSet) (cache : CacheT),
    ∃ D cache2, migrateAll destDS sources dest cache = some (D, cache2)
      ∧ D.jobs = dest.jobs ++ (sources.map (fun p => migJobsOf p.2)).flatten
      ∧ D.statusRows.map (fun r => r.st) =
          dest.statusRows.map (fun r => r.st) ++
          (sources.map (fun p => migStatusOf p.2)).flatten := by
  induction sources with
  | nil =>
    intro dest cache
    exact ⟨dest, cache, rfl, by simp, by simp⟩
  | cons p rest ih =>
    intro dest cache
    obtain ⟨sk, s⟩ := p
    obtain ⟨cache2, hstep⟩ := migrateJobs_shape sk destDS s dest cache
    obtain ⟨D, cache3, hrest, hjobs, hstatus⟩ := ih
      { dest with
        jobs := dest.jobs ++ migJobsOf s,
        statusRows := dest.statusRows ++ assignStatusIds dest.statusSeq (migStatusOf s),
        statusSeq := dest.statusSeq + (migStatusOf s).length } cache2
    refine ⟨D, cache3, ?_, ?_, ?_⟩
    · rw [migrateAll, hstep]
      exact hrest
    · rw [hjobs]
      simp
    · rw [hstatus]
      simp [assignStatusIds_map_st]

theorem hasStatusRow_true_of_mem (rows : List StatusRow) (r : StatusRow) (jid : Int)
    (hr : r ∈ rows) (hjid : r.st.jobID = jid) : hasStatusRow rows jid = true :=
  List.any_eq_true.mpr ⟨r, hr, by simpa using hjid⟩

theorem filter_map_fst (l : List (JobT × StatusRow)) (p : JobT → Bool) :
    (l.map (fun pr => pr.1)).filter p = (l.filter (fun pr => p pr.1)).map (fun pr => pr.1) := by
  induction l with
  | nil => rfl
  | cons a t ih => by_cases h : p a.1 <;> simp [List.filter_cons, h, ih]

theorem filter_map_carry (l : List (JobT × StatusRow)) (jid : Int) :
    (l.map carryStatus).filter (fun q => q.jobID == jid) =
      (l.filter (fun pr => pr.1.jobID == jid)).map carryStatus := by
  induction l with
  | nil => rfl
  | cons a t ih => by_cases h : a.1.jobID == jid <;> simp [List.filter_cons, carryStatus, h, ih]

theorem statusRows_filter_map_st (rows : List StatusRow) (jid : Int) :
    (rows.filter (fun q => q.st.jobID == jid)).map (fun q => q.st) =
      (rows.map (fun q => q.st)).filter (fun q => q.jobID == jid) := by
  induction rows with
  | nil => rfl
  | cons a t ih => by_cases h : a.st.jobID == jid <;> simp [List.filter_cons, h, ih]

theorem filter_flatten_all_nil {α : Type} (p : α → Bool) (L : List (List α))
    (h : ∀ li ∈ L, li.filter p = []) : (L.flatten).filter p = [] := by
  induction L with
  | nil => rfl
  | cons a t ih =>
    simp only [List.flatten_cons, List.filter_append, h a (by simp),
      ih (fun li hli => h li (List.mem_cons_of_mem _ hli)), List.append_nil]

theorem ga_filter_eq (s : DataSet) (S : List String) (jid : Int) (j : JobT)
    (hnod : (s.jobs.map (fun x => x.jobID)).Nodup) (hj : j ∈ s.jobs) (hjid : j.jobID = jid) :
    (dbGetProcessedAll s S).filter (fun pr => pr.1.jobID == jid) =
      ((latestStatusRows s.statusRows).filter (fun r =>
        r.st.jobID == j.jobID && (S.isEmpty || S.contains r.st.jobState))).map
      (fun r => (j, r)) :=
  flatten_filter_fst (fun x => (latestStatusRows s.statusRows).filter (fun r =>
    r.st.jobID == x.jobID && (S.isEmpty || S.contains r.st.jobState))) jid s.jobs hnod j hj hjid

theorem ga_filter_nil (s : DataSet) (S : List String) (jid : Int)
    (hnone : ∀ x ∈ s.jobs, x.jobID ≠ jid) :
    (dbGetProcessedAll s S).filter (fun pr => pr.1.jobID == jid) = [] :=
  flatten_filter_fst_nil (fun x => (latestStatusRows s.statusRows).filter (fun r =>
    r.st.jobID == x.jobID && (S.isEmpty || S.contains r.st.jobState))) jid s.jobs hnone

/-- Restriction of one source shard's migrated jobs and status rows to
one job_id: the unprocessed case. -/
theorem migOf_unprocessed (s : DataSet) (j : JobT)
    (hjobsNodup : (s.jobs.map (fun x => x.jobID)).Nodup)
    (hj : j ∈ s.jobs) (hns : hasStatusRow s.statusRows j.jobID = false) :
    (migJobsOf s).filter (fun x => x.jobID == j.jobID) = [j]
    ∧ (migStatusOf s).filter (fun q => q.jobID == j.jobID) = [] := by
  have hinj := List.inj_on_of_nodup_map hjobsNodup
  have hgafil : (dbGetProcessedAll s nonTerminalStates).filter
      (fun pr => pr.1.jobID == j.jobID) = [] := by
    rw [ga_filter_eq s nonTerminalStates j.jobID j hjobsNodup hj rfl]
    have hin : (latestStatusRows s.statusRows).filter (fun r =>
        r.st.jobID == j.jobID && (nonTerminalStates.isEmpty
          || nonTerminalStates.contains r.st.jobState)) = [] := by
      rw [List.filter_eq_nil_iff]
      intro q hq hcon
      simp only [Bool.and_eq_true, beq_iff_eq] at hcon
      have hqrows : q ∈ s.statusRows := (List.mem_filter.mp hq).1
      rw [hasStatusRow_true_of_mem s.statusRows q j.jobID hqrows hcon.1] at hns
      simp at hns
    rw [hin]
    rfl
  constructor
  · rw [migJobsOf, List.filter_append]
    have h1 : (dbGetUnprocessed s [] false 0).filter (fun x => x.jobID == j.jobID) = [j] := by
      rw [dbGetUnprocessed_noFilters, List.filter_filter]
      apply filter_eq_singleton_of_unique s.jobs _ j (hjobsNodup.of_map) hj
      · simp [hns]
      · intro q hq hpq
        simp only [Bool.and_eq_true, beq_iff_eq] at hpq
        exact hinj hq hj hpq.1
    have h2 : ((dbGetProcessedAll s nonTerminalStates).map (fun p => p.1)).filter
        (fun x => x.jobID == j.jobID) = [] := by
      rw [filter_map_fst, hgafil]
      rfl
    rw [h1, h2]
    rfl
  · rw [migStatusOf, filter_map_carry, hgafil]
    rfl

/-- Restriction of one source shard's migrated jobs and status rows to
one job_id: the unfinished (non-terminal latest status) case. -/
theorem migOf_nonterminal (s : DataSet) (j : JobT) (r : StatusRow)
    (hjobsNodup : (s.jobs.map (fun x => x.jobID)).Nodup)
    (hridsNodup : (s.statusRows.map (fun x => x.rid)).Nodup)
    (hj : j ∈ s.jobs) (hr : r ∈ latestStatusRows s.statusRows)
    (hrj : r.st.jobID = j.jobID)
    (hstate : nonTerminalStates.contains r.st.jobState = true) :
    (migJobsOf s).filter (fun x => x.jobID == j.jobID) = [j]
    ∧ (migStatusOf s).filter (fun q => q.jobID == j.jobID) = [carryStatus (j, r)] := by
  have hinj := List.inj_on_of_nodup_map hjobsNodup
  have hrrows : r ∈ s.statusRows := (List.mem_filter.mp hr).1
  have hinner : (latestStatusRows s.statusRows).filter (fun q =>
      q.st.jobID == j.jobID && (nonTerminalStates.isEmpty
        || nonTerminalStates.contains q.st.jobState)) = [r] := by
    apply filter_eq_singleton_of_unique _ _ r
      ((hridsNodup.of_map).filter _) hr
    · simp only [Bool.and_eq_true, Bool.or_eq_true]
      exact ⟨by simpa using hrj, Or.inr hstate⟩
    · intro q hq hpq
      simp only [Bool.and_eq_true, beq_iff_eq] at hpq
      exact latest_unique s.statusRows hridsNodup q r hq hr (by rw [hpq.1, hrj])
  have hgafil : (dbGetProcessedAll s nonTerminalStates).filter
      (fun pr => pr.1.jobID == j.jobID) = [(j, r)] := by
    rw [ga_filter_eq s nonTerminalStates j.jobID j hjobsNodup hj rfl, hinner]
    rfl
  constructor
  · rw [migJobsOf, List.filter_append]
    have h1 : (dbGetUnprocessed s [] false 0).filter (fun x => x.jobID == j.jobID) = [] := by
      rw [dbGetUnprocessed_noFilters, List.filter_filter]
      rw [List.filter_eq_nil_iff]
      intro q hq hpq
      simp only [Bool.and_eq_true, beq_iff_eq] at hpq
      have hqj : q = j := hinj hq hj hpq.1
      subst hqj
      rw [hasStatusRow_true_of_mem s.statusRows r q.jobID hrrows hrj] at hpq
      simpa using hpq.2
    have h2 : ((dbGetProcessedAll s nonTerminalStates).map (fun p => p.1)).filter
        (fun x => x.jobID == j.jobID) = [j] := by
      rw [filter_map_fst, hgafil]
      rfl
    rw [h1, h2]
    rfl
  · rw [migStatusOf, filter_map_carry, hgafil]
    rfl

/-- Restriction of one source shard's migrated jobs and status rows to
one job_id: the terminal case (latest status succeeded or aborted). -/
theorem migOf_terminal (s : DataSet) (j : JobT) (r : StatusRow)
    (hjobsNodup : (s.jobs.map (fun x => x.jobID)).Nodup)
    (hridsNodup : (s.statusRows.map (fun x => x.rid)).Nodup)
    (hj : j ∈ s.jobs) (hr : r ∈ latestStatusRows s.statusRows)
    (hrj : r.st.jobID = j.jobID)
    (hstate : r.st.jobState = "succeeded" ∨ r.st.jobState = "aborted") :
    (migJobsOf s).filter (fun x => x.jobID == j.jobID) = []
    ∧ (migStatusOf s).filter (fun q => q.jobID == j.jobID) = [] := by
  have hinj := List.inj_on_of_nodup_map hjobsNodup
  have hrrows : r ∈ s.statusRows := (List.mem_filter.mp hr).1
  have hncont : nonTerminalStates.contains r.st.jobState = false := by
    rcases hstate with h | h <;> rw [h] <;> decide
  have hinner : (latestStatusRows s.statusRows).filter (fun q =>
      q.st.jobID == j.jobID && (nonTerminalStates.isEmpty
        || nonTerminalStates.contains q.st.jobState)) = [] := by
    rw [List.filter_eq_nil_iff]
    intro q hq hpq
    simp only [Bool.and_eq_true, beq_iff_eq] at hpq
    have hqr : q = r :=
      latest_unique s.statusRows hridsNodup q r hq hr (by rw [hpq.1, hrj])
    subst hqr
    rcases (Bool.or_eq_true _ _).mp hpq.2 with h2 | h2
    · simp [nonTerminalStates] at h2
    · rw [hncont] at h2
      exact Bool.false_ne_true h2
  have hgafil : (dbGetProcessedAll s nonTerminalStates).filter
      (fun pr => pr.1.jobID == j.jobID) = [] := by
    rw [ga_filter_eq s nonTerminalStates j.jobID j hjobsNodup hj rfl, hinner]
    rfl
  constructor
  · rw [migJobsOf, List.filter_append]
    have h1 : (dbGetUnprocessed s [] false 0).filter (fun x => x.jobID == j.jobID) = [] := by
      rw [dbGetUnprocessed_noFilters, List.filter_filter]
      rw [List.filter_eq_nil_iff]
      intro q hq hpq
      simp only [Bool.and_eq_true, beq_iff_eq] at hpq
      have hqj : q = j := hinj hq hj hpq.1
      subst hqj
      rw [hasStatusRow_true_of_mem s.statusRows r q.jobID hrrows hrj] at hpq
      simpa using hpq.2
    have h2 : ((dbGetProcessedAll s nonTerminalStates).map (fun p => p.1)).filter
        (fun x => x.jobID == j.jobID) = [] := by
      rw [filter_map_fst, hgafil]
      rfl
    rw [h1, h2]
    rfl
  · rw [migStatusOf, filter_map_carry, hgafil]
    rfl

/-- Restriction of one source shard's migrated jobs and status rows to
a job_id the shard does not own: both empty. -/
theorem migOf_notmine (s : DataSet) (jid : Int)
    (hnone : jid ∉ s.jobs.map (fun x => x.jobID)) :
    (migJobsOf s).filter (fun x => x.jobID == jid) = []
    ∧ (migStatusOf s).filter (fun q => q.jobID == jid) = [] := by
  have hnone2 : ∀ x ∈ s.jobs, x.jobID ≠ jid := by
    intro x hx hcon
    exact hnone (hcon ▸ List.mem_map.mpr ⟨x, hx, rfl⟩)
  have hgafil := ga_filter_nil s nonTerminalStates jid hnone2
  constructor
  · rw [migJobsOf, List.filter_append]
    have h1 : (dbGetUnprocessed s [] false 0).filter (fun x => x.jobID == jid) = [] := by
      rw [dbGetUnprocessed_noFilters, List.filter_filter]
      rw [List.filter_eq_nil_iff]
      intro q hq hpq
      simp only [Bool.and_eq_true, beq_iff_eq] at hpq
      exact hnone2 q hq hpq.1
    have h2 : ((dbGetProcessedAll s nonTerminalStates).map (fun p => p.1)).filter
        (fun x => x.jobID == jid) = [] := by
      rw [filter_map_fst, hgafil]
      rfl
    rw [h1, h2]
    rfl
  · rw [migStatusOf, filter_map_carry, hgafil]
    rfl

def migSrc1 : DataSet :=
  { jobs := [exJob 1 "A", exJob 2 "A", exJob 3 "B"],
    statusRows := [⟨1, exStatus 2 "executing" 0⟩, ⟨2, exStatus 3 "succeeded" 0⟩,
                   ⟨3, exStatus 2 "failed" 7⟩],
    jobSeq := 3, statusSeq := 3 }

def migSrc2 : DataSet :=
  { jobs := [exJob 10 "A"], statusRows := [⟨1, exStatus 10 "waiting" 0⟩],
    jobSeq := 10, statusSeq := 1 }

def migSources : List (dataSetT × DataSet) := [(exK1, migSrc1), (exK2, migSrc2)]

/-- C1: for every compaction of source shards into a fresh destination
shard (migrateJobs invoked on each source in order), every job of a
source whose latest status is non-terminal (failed, waiting,
waiting_retry, executing) and every job with no status row appears
exactly once in the destination jobs table with its original row (and
hence job_id) preserved; each job with a non-terminal latest status
additionally gets exactly one status row carrying over that status's
state, attempt, exec_time, retry_time, error_code and error_response;
and no job whose latest status is succeeded or aborted appears in the
destination.  Hypotheses: job_ids are unique across the sources
(invariant 2 of the engine) and status-row ids are unique within each
source (primary key). -/
theorem migrate_compaction_correct (destDS : dataSetT)
    (sources : List (dataSetT × DataSet)) (cache : CacheT)
    (hids : ((sources.map (fun p => p.2.jobs.map (fun x => x.jobID))).flatten).Nodup)
    (hrids : ∀ p ∈ sources, (p.2.statusRows.map (fun r => r.rid)).Nodup) :
    ∃ D cache2, migrateAll destDS sources emptyDS cache = some (D, cache2)
    ∧ ∀ p ∈ sources, ∀ j ∈ p.2.jobs,
        (hasStatusRow p.2.statusRows j.jobID = false →
          D.jobs.countP (fun x => x.jobID == j.jobID) = 1 ∧ j ∈ D.jobs
          ∧ D.statusRows.countP (fun q => q.st.jobID == j.jobID) = 0)
      ∧ (∀ r ∈ latestStatusRows p.2.statusRows, r.st.jobID = j.jobID →
           (nonTerminalStates.contains r.st.jobState = true →
              D.jobs.countP (fun x => x.jobID == j.jobID) = 1 ∧ j ∈ D.jobs
              ∧ (D.statusRows.filter (fun q => q.st.jobID == j.jobID)).map (fun q => q.st)
                  = [carryStatus (j, r)])
         ∧ ((r.st.jobState = "succeeded" ∨ r.st.jobState = "aborted") →
              D.jobs.countP (fun x => x.jobID == j.jobID) = 0
              ∧ D.statusRows.countP (fun q => q.st.jobID == j.jobID) = 0)) := by
  obtain ⟨D, cache2, hrun, hjobs, hstatus⟩ := migrateAll_shape destDS sources emptyDS cache
  refine ⟨D, cache2, hrun, ?_⟩
  intro p hp j hj
  have hridsP := hrids p hp
  obtain ⟨l1, l2, hsrc⟩ := List.append_of_mem hp
  subst hsrc
  have hidsplit : (((l1 ++ p :: l2).map (fun q => q.2.jobs.map (fun x => x.jobID))).flatten) =
      ((l1.map (fun q => q.2.jobs.map (fun x => x.jobID))).flatten) ++
      (p.2.jobs.map (fun x => x.jobID) ++
        (l2.map (fun q => q.2.jobs.map (fun x => x.jobID))).flatten) := by
    simp
  rw [hidsplit] at hids
  have hdisj1 := List.disjoint_of_nodup_append hids
  have hids2 := hids.of_append_right
  have hpNodup : (p.2.jobs.map (fun x => x.jobID)).Nodup := hids2.of_append_left
  have hdisj2 := List.disjoint_of_nodup_append hids2
  have hjid_p : j.jobID ∈ p.2.jobs.map (fun x => x.jobID) := List.mem_map.mpr ⟨j, hj, rfl⟩
  have hnotl1 : ∀ q ∈ l1, j.jobID ∉ q.2.jobs.map (fun x => x.jobID) := by
    intro q hq hcon
    exact hdisj1 (List.mem_flatten.mpr ⟨_, List.mem_map.mpr ⟨q, hq, rfl⟩, hcon⟩)
      (List.mem_append_left _ hjid_p)
  have hnotl2 : ∀ q ∈ l2, j.jobID ∉ q.2.jobs.map (fun x => x.jobID) := by
    intro q hq hcon
    exact hdisj2 hjid_p (List.mem_flatten.mpr ⟨_, List.mem_map.mpr ⟨q, hq, rfl⟩, hcon⟩)
  have hl1j : ((l1.map (fun q => migJobsOf q.2)).flatten).filter
      (fun x => x.jobID == j.jobID) = [] := by
    apply filter_flatten_all_nil
    intro li hli
    obtain ⟨q, hq, hqe⟩ := List.mem_map.mp hli
    subst hqe
    exact (migOf_notmine q.2 j.jobID (hnotl1 q hq)).1
  have hl2j : ((l2.map (fun q => migJobsOf q.2)).flatten).filter
      (fun x => x.jobID == j.jobID) = [] := by
    apply filter_flatten_all_nil
    intro li hli
    obtain ⟨q, hq, hqe⟩ := List.mem_map.mp hli
    subst hqe
    exact (migOf_notmine q.2 j.jobID (hnotl2 q hq)).1
  have hl1s : ((l1.map (fun q => migStatusOf q.2)).flatten).filter
      (fun q => q.jobID == j.jobID) = [] := by
    apply filter_flatten_all_nil
    intro li hli
    obtain ⟨q, hq, hqe⟩ := List.mem_map.mp hli
    subst hqe
    exact (migOf_notmine q.2 j.jobID (hnotl1 q hq)).2
  have hl2s : ((l2.map (fun q => migStatusOf q.2)).flatten).filter
      (fun q => q.jobID == j.jobID) = [] := by
    apply filter_flatten_all_nil
    intro li hli
    obtain ⟨q, hq, hqe⟩ := List.mem_map.mp hli
    subst hqe
    exact (migOf_notmine q.2 j.jobID (hnotl2 q hq)).2
  have hDjobs : D.jobs.filter (fun x => x.jobID == j.jobID) =
      (migJobsOf p.2).filter (fun x => x.jobID == j.jobID) := by
    rw [hjobs]
    simp [emptyDS, List.filter_append, hl1j, hl2j]
  have hDst : (D.statusRows.map (fun q => q.st)).filter (fun q => q.jobID == j.jobID) =
      (migStatusOf p.2).filter (fun q => q.jobID == j.jobID) := by
    rw [hstatus]
    simp [emptyDS, List.filter_append, hl1s, hl2s]
  have hcountJobs : ∀ X : List JobT,
      (migJobsOf p.2).filter (fun x => x.jobID == j.jobID) = X →
      D.jobs.countP (fun x => x.jobID == j.jobID) = X.length := by
    intro X hX
    rw [List.countP_eq_length_filter, hDjobs, hX]
  have hcountSt : ∀ X : List JobStatusT,
      (migStatusOf p.2).filter (fun q => q.jobID == j.jobID) = X →
      D.statusRows.countP (fun q => q.st.jobID == j.jobID) = X.length := by
    intro X hX
    rw [List.countP_eq_length_filter]
    have hlen : (D.statusRows.filter (fun q => q.st.jobID == j.jobID)).length =
        ((D.statusRows.filter (fun q => q.st.jobID == j.jobID)).map (fun q => q.st)).length := by
      rw [List.length_map]
    rw [hlen, statusRows_filter_map_st, hDst, hX]
  have hmemJobs : (migJobsOf p.2).filter (fun x => x.jobID == j.jobID) = [j] →
      j ∈ D.jobs := by
    intro hX
    have : j ∈ D.jobs.filter (fun x => x.jobID == j.jobID) := by
      rw [hDjobs, hX]
      simp
    exact List.mem_of_mem_filter this
  refine ⟨?_, ?_⟩
  · intro hns
    obtain ⟨hA, hB⟩ := migOf_unprocessed p.2 j hpNodup hj hns
    exact ⟨hcountJobs [j] hA, hmemJobs hA, hcountSt [] hB⟩
  · intro r hr hrj
    refine ⟨?_, ?_⟩
    · intro hstate
      obtain ⟨hA, hB⟩ := migOf_nonterminal p.2 j r hpNodup hridsP hj hr hrj hstate
      refine ⟨hcountJobs [j] hA, hmemJobs hA, ?_⟩
      rw [statusRows_filter_map_st, hDst, hB]
    · intro hstate
      obtain ⟨hA, hB⟩ := migOf_terminal p.2 j r hpNodup hridsP hj hr hrj hstate
      exact ⟨hcountJobs [] hA, hcountSt [] hB⟩

/-- Witness for C1: a concrete two-shard catalog (job_ids 1,2,3 in the
first shard, 10 in the second; job 2 latest status failed, job 3
succeeded, job 10 waiting, job 1 without status) satisfies both
uniqueness hypotheses, and the compaction theorem applies to it. -/
theorem migrate_compaction_correct_witness :
    ((migSources.map (fun p => p.2.jobs.map (fun x => x.jobID))).flatten).Nodup
    ∧ (∀ p ∈ migSources, (p.2.statusRows.map (fun r => r.rid)).Nodup)
    ∧ (∃ D cache2, migrateAll exK3 migSources emptyDS [] = some (D, cache2)
    ∧ ∀ p ∈ migSources, ∀ j ∈ p.2.jobs,
        (hasStatusRow p.2.statusRows j.jobID = false →
          D.jobs.countP (fun x => x.jobID == j.jobID) = 1 ∧ j ∈ D.jobs
          ∧ D.statusRows.countP (fun q => q.st.jobID == j.jobID) = 0)
      ∧ (∀ r ∈ latestStatusRows p.2.statusRows, r.st.jobID = j.jobID →
           (nonTerminalStates.contains r.st.jobState = true →
              D.jobs.countP (fun x => x.jobID == j.jobID) = 1 ∧ j ∈ D.jobs
              ∧ (D.statusRows.filter (fun q => q.st.jobID == j.jobID)).map (fun q => q.st)
                  = [carryStatus (j, r)])
         ∧ ((r.st.jobState = "succeeded" ∨ r.st.jobState = "aborted") →
              D.jobs.countP (fun x => x.jobID == j.jobID) = 0
              ∧ D.statusRows.countP (fun q => q.st.jobID == j.jobID) = 0))) :=
  ⟨by decide, by decide,
    migrate_compaction_correct exK3 migSources [] (by decide) (by decide)⟩

/-! C6 development: the empty-result cache as a pure optimization.
Lookup lemmas for the three-level cache map. -/

def dsLookup (m : DsCache) (c stv : String) : Option Bool :=
  (alGet m c).bind (fun sm => alGet sm stv)

theorem cacheLookup_eq_bind (cache : CacheT) (ds : dataSetT) (c stv : String) :
    cacheLookup cache ds c stv = (alGet cache ds).bind (fun m => dsLookup m c stv) := rfl

theorem cacheLookup_alErase (cache : CacheT) (ds : dataSetT) (c stv : String) :
    cacheLookup (alErase cache ds) ds c stv = none := by
  rw [cacheLookup_eq_bind, alGet_alErase]
  simp

theorem dsLookup_setMark_same (m : DsCache) (c stv : String) (b : Bool) :
    dsLookup (setMark m c stv b) c stv = some b := by
  rw [dsLookup, setMark, alGet_alSet_self]
  simp [alGet_alSet_self]

theorem dsLookup_setMark_other (m : DsCache) (c stv c2 stv2 : String) (b : Bool)
    (h : ¬(c2 = c ∧ stv2 = stv)) :
    dsLookup (setMark m c stv b) c2 stv2 = dsLookup m c2 stv2 := by
  by_cases hc : c2 = c
  · subst hc
    have hst : stv ≠ stv2 := fun he => h ⟨rfl, he.symm⟩
    rw [dsLookup, dsLookup, setMark, alGet_alSet_self, Option.some_bind,
      alGet_alSet_ne _ _ _ _ hst]
    cases hm : alGet m c2 with
    | none => simp [alGet]
    | some sm => simp
  · rw [dsLookup, dsLookup, setMark, alGet_alSet_ne _ _ _ _ (fun he => hc he.symm)]

theorem dsLookup_foldStates (S : List String) (c : String) (b : Bool) :
    ∀ (m : DsCache) (c2 stv2 : String),
    dsLookup (S.foldl (fun m2 stv => setMark m2 c stv b) m) c2 stv2 =
    if c2 = c ∧ stv2 ∈ S then some b else dsLookup m c2 stv2 := by
  induction S with
  | nil =>
    intro m c2 stv2
    simp
  | cons s t ih =>
    intro m c2 stv2
    rw [List.foldl_cons, ih]
    by_cases hmem : c2 = c ∧ stv2 ∈ t
    · rw [if_pos hmem, if_pos ⟨hmem.1, List.mem_cons_of_mem _ hmem.2⟩]
    · rw [if_neg hmem]
      by_cases hhd : c2 = c ∧ stv2 = s
      · rw [hhd.1, hhd.2, dsLookup_setMark_same,
          if_pos ⟨rfl, List.mem_cons_self _ _⟩]
      · have hnot : ¬(c2 = c ∧ stv2 ∈ s :: t) := by
          rintro ⟨h1, h2⟩
          rcases List.mem_cons.mp h2 with h3 | h3
          · exact hhd ⟨h1, h3⟩
          · exact hmem ⟨h1, h3⟩
        rw [dsLookup_setMark_other _ _ _ _ _ _ hhd, if_neg hnot]

theorem dsLookup_foldCvals (C S : List String) (b : Bool) :
    ∀ (m : DsCache) (c2 stv2 : String),
    dsLookup (C.foldl (fun m c => S.foldl (fun m2 stv => setMark m2 c stv b) m) m) c2 stv2 =
    if c2 ∈ C ∧ stv2 ∈ S then some b else dsLookup m c2 stv2 := by
  induction C with
  | nil => intro m c2 stv2; simp
  | cons a t ih =>
    intro m c2 stv2
    rw [List.foldl_cons, ih]
    by_cases hmem : c2 ∈ t ∧ stv2 ∈ S
    · rw [if_pos hmem, if_pos ⟨List.mem_cons_of_mem _ hmem.1, hmem.2⟩]
    · rw [if_neg hmem, dsLookup_foldStates]
      by_cases hhd : c2 = a ∧ stv2 ∈ S
      · rw [if_pos hhd, if_pos ⟨by rw [hhd.1]; exact List.mem_cons_self _ _, hhd.2⟩]
      · have hnot : ¬(c2 ∈ a :: t ∧ stv2 ∈ S) := by
          rintro ⟨h1, h2⟩
          rcases List.mem_cons.mp h1 with h3 | h3
          · exact hhd ⟨h3, h2⟩
          · exact hmem ⟨h3, h2⟩
        rw [if_neg hhd, if_neg hnot]

theorem cacheLookup_markClear (cache : CacheT) (ds : dataSetT) (S C : List String)
    (mark : Bool) (hS : S ≠ []) (hC : C ≠ []) (c stv : String) :
    cacheLookup (markClearEmptyResult cache ds S C mark) ds c stv =
    if c ∈ C ∧ stv ∈ S then some mark else cacheLookup cache ds c stv := by
  rw [markClearEmptyResult]
  have h1 : (S.isEmpty || C.isEmpty) = false := by
    simp [List.isEmpty_iff, hS, hC]
  rw [if_neg (by simp [h1])]
  rw [cacheLookup_eq_bind, alGet_alSet_self, Option.some_bind, dsLookup_foldCvals]
  by_cases hP : c ∈ C ∧ stv ∈ S
  · rw [if_pos hP, if_pos hP]
  · rw [if_neg hP, if_neg hP, cacheLookup_eq_bind]
    cases hm : alGet cache ds with
    | none => simp [dsLookup, alGet]
    | some m => simp

theorem markClear_empty_erase (cache : CacheT) (ds : dataSetT) :
    markClearEmptyResult cache ds [] [] false = alErase cache ds := rfl

theorem markClear_emptyC_false (cache : CacheT) (ds : dataSetT) (S : List String) :
    markClearEmptyResult cache ds S [] false = alErase cache ds := by
  rw [markClearEmptyResult, if_pos (by simp)]
  simp

theorem markClear_true_emptyfilters (cache : CacheT) (ds : dataSetT) (S C : List String)
    (h : S = [] ∨ C = []) :
    markClearEmptyResult cache ds S C true = cache := by
  rw [markClearEmptyResult]
  have h1 : (S.isEmpty || C.isEmpty) = true := by
    rcases h with h | h <;> subst h <;> simp
  rw [if_pos h1]
  simp

theorem isEmptyResult_emptyC (cache : CacheT) (ds : dataSetT) (S : List String) :
    isEmptyResult cache ds S [] = false := by
  rw [isEmptyResult]
  split
  · rfl
  · rw [if_pos (by simp)]

theorem isEmptyResult_lookup (cache : CacheT) (ds : dataSetT) (S C : List String)
    (h : isEmptyResult cache ds S C = true) :
    S ≠ [] ∧ C ≠ [] ∧ ∀ c ∈ C, ∀ stv ∈ S, cacheLookup cache ds c stv = some true := by
  rw [isEmptyResult] at h
  split at h
  · exact absurd h (by simp)
  · rename_i m hm
    by_cases he : (S.isEmpty || C.isEmpty) = true
    · rw [if_pos he] at h; exact absurd h (by simp)
    · rw [if_neg he] at h
      have hSC : S ≠ [] ∧ C ≠ [] := by
        constructor <;> intro hnil <;> subst hnil <;> simp at he
      refine ⟨hSC.1, hSC.2, ?_⟩
      intro c hc stv hstv
      have hc2 := (List.all_eq_true.mp h) c hc
      split at hc2
      · exact absurd hc2 (by simp)
      · rename_i sm hsm
        have hst := (List.all_eq_true.mp hc2) stv hstv
        cases hv : alGet sm stv with
        | none => rw [hv] at hst; exact absurd hst (by simp)
        | some b =>
          rw [hv] at hst
          have hb : b = true := by simpa using hst
          rw [cacheLookup_eq_bind, hm, Option.some_bind]
          show (alGet m c).bind (fun sm => alGet sm stv) = some true
          rw [hsm, Option.some_bind, hv, hb]

/-! C6: query-level emptiness and membership lemmas. -/

theorem take_pos_nil {α : Type} (l : List α) (n : Int) (h : 0 < n) :
    l.take n.toNat = [] ↔ l = [] := by
  cases hn : n.toNat with
  | zero => exfalso; omega
  | succ k => cases l <;> simp

theorem insertionSort_eq_nil_iff {α : Type} (r : α → α → Prop) [DecidableRel r] (l : List α) :
    List.insertionSort r l = [] ↔ l = [] := by
  constructor
  · intro h
    have hp := List.perm_insertionSort r l
    rw [h] at hp
    exact hp.symm.eq_nil
  · intro h
    subst h
    rfl

theorem mem_unproc_zero (d : DataSet) (C : List String) (j : JobT) :
    j ∈ dbGetUnprocessed d C false 0 ↔
    j ∈ d.jobs ∧ hasStatusRow d.statusRows j.jobID = false
      ∧ (C.isEmpty = true ∨ C.contains j.customVal = true) := by
  by_cases hC : C.isEmpty
  · simp [dbGetUnprocessed, hC, List.mem_filter]
  · simp [dbGetUnprocessed, hC, List.mem_filter, and_assoc]
    intro _
    exact ⟨fun h => ⟨h.2, h.1⟩, fun h => ⟨h.2, h.1⟩⟩

theorem mem_proc_zero (d : DataSet) (S C : List String) (now : Int) (pr : JobT × StatusRow) :
    pr ∈ dbGetProcessed d S C 0 now ↔
    pr.1 ∈ d.jobs ∧ pr.2 ∈ latestStatusRows d.statusRows
      ∧ (pr.2.st.jobID == pr.1.jobID) = true
      ∧ (S.isEmpty || S.contains pr.2.st.jobState) = true
      ∧ (C.isEmpty || C.contains pr.1.customVal) = true
      ∧ ltIntBool pr.2.st.retryTime now = true := by
  have h0 : ¬ (0:Int) < 0 := by omega
  simp only [dbGetProcessed]
  rw [if_neg h0, (List.perm_insertionSort pairJobIdLE _).mem_iff]
  constructor
  · intro h
    obtain ⟨li, hli, hpr⟩ := List.mem_flatten.mp h
    obtain ⟨j, hj, hje⟩ := List.mem_map.mp hli
    subst hje
    obtain ⟨r, hr, hre⟩ := List.mem_map.mp hpr
    obtain ⟨hrl, hcond⟩ := List.mem_filter.mp hr
    subst hre
    simp only [Bool.and_eq_true] at hcond
    exact ⟨hj, hrl, hcond.1.1.1, hcond.1.1.2, hcond.1.2, hcond.2⟩
  · rintro ⟨h1, h2, h3, h4, h5, h6⟩
    refine List.mem_flatten.mpr ⟨_, List.mem_map.mpr ⟨pr.1, h1, rfl⟩, ?_⟩
    refine List.mem_map.mpr ⟨pr.2, List.mem_filter.mpr ⟨h2, ?_⟩, rfl⟩
    simp only [Bool.and_eq_true]
    exact ⟨⟨⟨h3, h4⟩, h5⟩, h6⟩

theorem dbGetProcessed_nil_iff (d : DataSet) (S C : List String) (lim now : Int) :
    dbGetProcessed d S C lim now = [] ↔ dbGetProcessed d S C 0 now = [] := by
  have h0 : ¬ (0:Int) < 0 := by omega
  simp only [dbGetProcessed]
  rw [if_neg h0]
  by_cases hl : 0 < lim
  · rw [if_pos hl, take_pos_nil _ _ hl]
  · rw [if_neg hl]

theorem dbGetUnprocessed_nil_iff (d : DataSet) (C : List String) (order : Bool) (count : Int) :
    dbGetUnprocessed d C order count = [] ↔ dbGetUnprocessed d C false 0 = [] := by
  simp only [dbGetUnprocessed]
  by_cases hc : 0 < count
  · cases order <;>
      simp [hc, insertionSort_eq_nil_iff, take_pos_nil _ _ hc, lt_self_iff_false]
  · cases order <;>
      simp [hc, insertionSort_eq_nil_iff, lt_self_iff_false]

theorem unproc_single_of_full (d : DataSet) (C : List String) (order : Bool) (count : Int)
    (h : dbGetUnprocessed d C order count = []) (c : String) (hc : c ∈ C) :
    dbGetUnprocessed d [c] false 0 = [] := by
  rw [dbGetUnprocessed_nil_iff] at h
  rw [List.eq_nil_iff_forall_not_mem] at h ⊢
  intro j hj
  obtain ⟨h1, h2, h3⟩ := (mem_unproc_zero d [c] j).mp hj
  have hcv : j.customVal = c := by
    rcases h3 with h3 | h3
    · simp at h3
    · simpa using h3
  apply h j
  refine (mem_unproc_zero d C j).mpr ⟨h1, h2, Or.inr ?_⟩
  rw [hcv]
  simpa using hc

theorem unproc_full_of_singles (d : DataSet) (C : List String) (order : Bool) (count : Int)
    (hC : C ≠ []) (h : ∀ c ∈ C, dbGetUnprocessed d [c] false 0 = []) :
    dbGetUnprocessed d C order count = [] := by
  rw [dbGetUnprocessed_nil_iff, List.eq_nil_iff_forall_not_mem]
  intro j hj
  obtain ⟨h1, h2, h3⟩ := (mem_unproc_zero d C j).mp hj
  have hcv : j.customVal ∈ C := by
    rcases h3 with h3 | h3
    · exact absurd (List.isEmpty_iff.mp h3) hC
    · simpa using h3
  have h4 := h j.customVal hcv
  rw [List.eq_nil_iff_forall_not_mem] at h4
  exact h4 j ((mem_unproc_zero d [j.customVal] j).mpr ⟨h1, h2, Or.inr (by simp)⟩)

theorem proc_single_of_full (d : DataSet) (S C : List String) (lim now : Int)
    (h : dbGetProcessed d S C lim now = []) (c stv : String) (hc : c ∈ C) (hs : stv ∈ S) :
    dbGetProcessed d [stv] [c] 0 now = [] := by
  rw [dbGetProcessed_nil_iff] at h
  rw [List.eq_nil_iff_forall_not_mem] at h ⊢
  intro pr hpr
  obtain ⟨h1, h2, h3, h4, h5, h6⟩ := (mem_proc_zero d [stv] [c] now pr).mp hpr
  have hst : pr.2.st.jobState = stv := by
    rcases (Bool.or_eq_true _ _).mp h4 with h' | h'
    · simp at h'
    · simpa using h'
  have hcv : pr.1.customVal = c := by
    rcases (Bool.or_eq_true _ _).mp h5 with h' | h'
    · simp at h'
    · simpa using h'
  apply h pr
  refine (mem_proc_zero d S C now pr).mpr ⟨h1, h2, h3, ?_, ?_, h6⟩
  · rw [hst]
    exact (Bool.or_eq_true _ _).mpr (Or.inr (by simpa using hs))
  · rw [hcv]
    exact (Bool.or_eq_true _ _).mpr (Or.inr (by simpa using hc))

theorem proc_full_of_singles (d : DataSet) (S C : List String) (lim now : Int)
    (hS : S ≠ []) (hC : C ≠ [])
    (h : ∀ c ∈ C, ∀ stv ∈ S, dbGetProcessed d [stv] [c] 0 now = []) :
    dbGetProcessed d S C lim now = [] := by
  rw [dbGetProcessed_nil_iff, List.eq_nil_iff_forall_not_mem]
  intro pr hpr
  obtain ⟨h1, h2, h3, h4, h5, h6⟩ := (mem_proc_zero d S C now pr).mp hpr
  have hst : pr.2.st.jobState ∈ S := by
    rcases (Bool.or_eq_true _ _).mp h4 with h' | h'
    · exact absurd (List.isEmpty_iff.mp h') hS
    · simpa using h'
  have hcv : pr.1.customVal ∈ C := by
    rcases (Bool.or_eq_true _ _).mp h5 with h' | h'
    · exact absurd (List.isEmpty_iff.mp h') hC
    · simpa using h'
  have h0 := h pr.1.customVal hcv pr.2.st.jobState hst
  rw [List.eq_nil_iff_forall_not_mem] at h0
  exact h0 pr ((mem_proc_zero _ _ _ _ _).mpr ⟨h1, h2, h3,
    (Bool.or_eq_true _ _).mpr (Or.inr (by simp)),
    (Bool.or_eq_true _ _).mpr (Or.inr (by simp)), h6⟩)

/-! C6: status-table well-formedness (serial primary key), preserved by
every write, and stability of the latest-status subquery for old rows. -/

def stWF (d : DataSet) : Prop :=
  (d.statusRows.map (fun r => r.rid)).Nodup ∧ ∀ r ∈ d.statusRows, r.rid ≤ d.statusSeq

theorem assignStatusIds_rid_bounds (sl : List JobStatusT) :
    ∀ seq : Int, ∀ x ∈ assignStatusIds seq sl, seq < x.rid ∧ x.rid ≤ seq + sl.length := by
  induction sl with
  | nil => intro seq x hx; simp [assignStatusIds] at hx
  | cons s t ih =>
    intro seq x hx
    rw [assignStatusIds] at hx
    rcases List.mem_cons.mp hx with h | h
    · subst h
      refine ⟨by show seq < seq + 1; omega, ?_⟩
      show seq + 1 ≤ seq + ↑(s :: t).length
      simp only [List.length_cons]
      omega
    · obtain ⟨ih1, ih2⟩ := ih (seq + 1) x h
      refine ⟨by omega, ?_⟩
      show x.rid ≤ seq + ↑(s :: t).length
      simp only [List.length_cons]
      omega

theorem assignStatusIds_rid_nodup (sl : List JobStatusT) :
    ∀ seq : Int, ((assignStatusIds seq sl).map (fun r => r.rid)).Nodup := by
  induction sl with
  | nil => intro seq; simp [assignStatusIds]
  | cons s t ih =>
    intro seq
    rw [assignStatusIds, List.map_cons]
    refine List.nodup_cons.mpr ⟨?_, ih (seq + 1)⟩
    intro hmem
    obtain ⟨x, hx, hxr⟩ := List.mem_map.mp hmem
    have hgt := (assignStatusIds_rid_bounds t (seq + 1) x hx).1
    have hxr2 : x.rid = seq + 1 := hxr
    omega

theorem stWF_updatePlain (d : DataSet) (sl : List JobStatusT) (h : stWF d) :
    stWF (updatePlain d sl) := by
  obtain ⟨hnd, hbd⟩ := h
  constructor
  · show ((d.statusRows ++ assignStatusIds d.statusSeq sl).map (fun r => r.rid)).Nodup
    rw [List.map_append]
    refine List.Nodup.append hnd (assignStatusIds_rid_nodup sl d.statusSeq) ?_
    intro a ha hb
    obtain ⟨r, hr, hre⟩ := List.mem_map.mp ha
    obtain ⟨x, hx, hxe⟩ := List.mem_map.mp hb
    have h1 := hbd r hr
    have h2 := (assignStatusIds_rid_bounds sl d.statusSeq x hx).1
    omega
  · intro r hr
    have hr2 : r ∈ d.statusRows ++ assignStatusIds d.statusSeq sl := hr
    show r.rid ≤ d.statusSeq + ↑sl.length
    rcases List.mem_append.mp hr2 with h | h
    · have := hbd r h
      omega
    · exact (assignStatusIds_rid_bounds sl d.statusSeq r h).2

theorem stWF_storePlain (d : DataSet) (b : Bool) (l : List JobT) (h : stWF d) :
    stWF (storePlain d b l) := by
  cases b
  · exact ⟨h.1, h.2⟩
  · exact ⟨h.1, h.2⟩

theorem latest_append_old (rows newRows : List StatusRow)
    (hnd : ((rows ++ newRows).map (fun r => r.rid)).Nodup)
    (r : StatusRow) (hr : r ∈ rows) (hlat : r ∈ latestStatusRows (rows ++ newRows)) :
    r ∈ latestStatusRows rows := by
  have hgm2 : groupMaxId (rows ++ newRows) r.st.jobID = some r.rid :=
    latest_rid_eq (rows ++ newRows) hnd r hlat
  have hrmem : r.rid ∈ (rows.filter (fun q => q.st.jobID == r.st.jobID)).map (fun q => q.rid) :=
    List.mem_map.mpr ⟨r, List.mem_filter.mpr ⟨hr, by simp⟩, rfl⟩
  have hne : (rows.filter (fun q => q.st.jobID == r.st.jobID)).map (fun q => q.rid) ≠ [] :=
    List.ne_nil_of_mem hrmem
  obtain ⟨m, hm⟩ := listMaxInt_of_ne_nil _ hne
  have hmmem := listMaxInt_mem _ m hm
  have hmbig : m ∈ ((rows ++ newRows).filter
      (fun q => q.st.jobID == r.st.jobID)).map (fun q => q.rid) := by
    obtain ⟨q, hq, hqe⟩ := List.mem_map.mp hmmem
    have hq2 := List.mem_filter.mp hq
    exact List.mem_map.mpr ⟨q, List.mem_filter.mpr ⟨List.mem_append_left _ hq2.1, hq2.2⟩, hqe⟩
  have hle1 : m ≤ r.rid := listMaxInt_ge _ r.rid hgm2 m hmbig
  have hle2 : r.rid ≤ m := listMaxInt_ge _ m hm r.rid hrmem
  have hgm1 : groupMaxId rows r.st.jobID = some r.rid := by
    have hmr : m = r.rid := le_antisymm hle1 hle2
    rw [← hmr]
    exact hm
  have hmax : r.rid ∈ groupMaxIds rows :=
    (mem_groupMaxIds rows r.rid).mpr
      ⟨r.st.jobID, List.mem_dedup.mpr (List.mem_map.mpr ⟨r, hr, rfl⟩), hgm1⟩
  show r ∈ rows.filter (fun q => (groupMaxIds rows).contains q.rid)
  exact List.mem_filter.mpr ⟨hr, by simpa using hmax⟩

theorem unproc_update_empty (d : DataSet) (sl : List JobStatusT) (c : String)
    (hold : dbGetUnprocessed d [c] false 0 = []) :
    dbGetUnprocessed (updatePlain d sl) [c] false 0 = [] := by
  rw [List.eq_nil_iff_forall_not_mem]
  intro j hj
  obtain ⟨h1, h2, h3⟩ := (mem_unproc_zero _ _ _).mp hj
  have h1' : j ∈ d.jobs := h1
  have h2a : hasStatusRow (d.statusRows ++ assignStatusIds d.statusSeq sl) j.jobID = false := h2
  have h2' : hasStatusRow d.statusRows j.jobID = false := by
    rw [hasStatusRow, List.any_append] at h2a
    exact (Bool.or_eq_false_iff.mp h2a).1
  rw [List.eq_nil_iff_forall_not_mem] at hold
  exact hold j ((mem_unproc_zero d [c] j).mpr ⟨h1', h2', h3⟩)

theorem proc_update_empty (d : DataSet) (sl : List JobStatusT) (stv c : String) (n0 : Int)
    (hWF : stWF d)
    (hold : dbGetProcessed d [stv] [c] 0 n0 = [])
    (hexcl : ∀ s ∈ sl, ∀ j ∈ d.jobs, j.jobID = s.jobID →
        ¬(s.jobState = stv ∧ j.customVal = c)) :
    dbGetProcessed (updatePlain d sl) [stv] [c] 0 n0 = [] := by
  rw [List.eq_nil_iff_forall_not_mem]
  intro pr hpr
  obtain ⟨h1, h2, h3, h4, h5, h6⟩ := (mem_proc_zero _ _ _ _ _).mp hpr
  have h1' : pr.1 ∈ d.jobs := h1
  have h2' : pr.2 ∈ latestStatusRows (d.statusRows ++ assignStatusIds d.statusSeq sl) := h2
  have hnd2 : ((d.statusRows ++ assignStatusIds d.statusSeq sl).map (fun r => r.rid)).Nodup :=
    (stWF_updatePlain d sl hWF).1
  by_cases hom : pr.2 ∈ d.statusRows
  · have hlat : pr.2 ∈ latestStatusRows d.statusRows :=
      latest_append_old _ _ hnd2 pr.2 hom h2'
    rw [List.eq_nil_iff_forall_not_mem] at hold
    exact hold pr ((mem_proc_zero _ _ _ _ _).mpr ⟨h1', hlat, h3, h4, h5, h6⟩)
  · have h2f : pr.2 ∈ (d.statusRows ++ assignStatusIds d.statusSeq sl).filter
        (fun q => (groupMaxIds (d.statusRows ++ assignStatusIds d.statusSeq sl)).contains q.rid) :=
      h2'
    have hmem2 := (List.mem_filter.mp h2f).1
    have hnew : pr.2 ∈ assignStatusIds d.statusSeq sl := by
      rcases List.mem_append.mp hmem2 with h | h
      · exact absurd h hom
      · exact h
    have hst : pr.2.st ∈ sl := by
      have hm : pr.2.st ∈ (assignStatusIds d.statusSeq sl).map (fun r => r.st) :=
        List.mem_map.mpr ⟨pr.2, hnew, rfl⟩
      rw [assignStatusIds_map_st sl d.statusSeq] at hm
      exact hm
    have hstate : pr.2.st.jobState = stv := by
      rcases (Bool.or_eq_true _ _).mp h4 with h' | h'
      · simp at h'
      · simpa using h'
    have hcval : pr.1.customVal = c := by
      rcases (Bool.or_eq_true _ _).mp h5 with h' | h'
      · simp at h'
      · simpa using h'
    have hjid : pr.1.jobID = pr.2.st.jobID := by
      have h3' : pr.2.st.jobID = pr.1.jobID := by simpa using h3
      exact h3'.symm
    exact hexcl pr.2.st hst pr.1 h1' hjid ⟨hstate, hcval⟩

/-! C6: the soundness invariant tying cache marks to database queries,
and its preservation along every operation. -/

def cacheSound (key : dataSetT) (n0 : Int) (cache : CacheT) (d : DataSet) : Prop :=
  ∀ c stv : String, cacheLookup cache key c stv = some true →
    (stv = "NP" → dbGetUnprocessed d [c] false 0 = []) ∧
    (stv ≠ "NP" → dbGetProcessed d [stv] [c] 0 n0 = [])

theorem cacheSound_nil (key : dataSetT) (n0 : Int) (d : DataSet) :
    cacheSound key n0 [] d := by
  intro c stv h
  rw [cacheLookup_eq_bind] at h
  exact absurd h (by simp [alGet])

theorem cacheSound_erase (key : dataSetT) (n0 : Int) (cache : CacheT) (d : DataSet) :
    cacheSound key n0 (alErase cache key) d := by
  intro c stv h
  rw [cacheLookup_alErase] at h
  exact absurd h (by simp)

theorem writtenStates_ne_nil (sl : List JobStatusT) (h : sl ≠ []) :
    writtenStates sl ≠ [] := by
  cases sl with
  | nil => exact absurd rfl h
  | cons s t =>
    exact List.ne_nil_of_mem
      (List.mem_dedup.mpr (List.mem_map.mpr ⟨s, List.mem_cons_self _ _, rfl⟩))

theorem cacheSound_update (key : dataSetT) (n0 : Int) (cache : CacheT) (d : DataSet)
    (sl : List JobStatusT) (cvals : List String)
    (hWF : stWF d)
    (hsound : cacheSound key n0 cache d)
    (hcover : ∀ s ∈ sl, ∀ j ∈ d.jobs, j.jobID = s.jobID → cvals.contains j.customVal = true)
    (hne : sl ≠ []) (hC : cvals ≠ []) :
    cacheSound key n0 (markClearEmptyResult cache key (writtenStates sl) cvals false)
      (updatePlain d sl) := by
  intro c stv hlook
  rw [cacheLookup_markClear cache key _ cvals false (writtenStates_ne_nil sl hne) hC] at hlook
  by_cases hin : c ∈ cvals ∧ stv ∈ writtenStates sl
  · rw [if_pos hin] at hlook
    exact absurd hlook (by simp)
  · rw [if_neg hin] at hlook
    have hold := hsound c stv hlook
    constructor
    · intro hNP
      exact unproc_update_empty d sl c (hold.1 hNP)
    · intro hNNP
      refine proc_update_empty d sl stv c n0 hWF (hold.2 hNNP) ?_
      rintro s hs j hj hjid ⟨hstate, hcval⟩
      apply hin
      refine ⟨?_, ?_⟩
      · rw [← hcval]
        have hcc := hcover s hs j hj hjid
        simpa using hcc
      · rw [← hstate]
        exact List.mem_dedup.mpr (List.mem_map.mpr ⟨s, hs, rfl⟩)

theorem cacheSound_unprocMark (key : dataSetT) (n0 : Int) (cache : CacheT) (d : DataSet)
    (cvals : List String) (order : Bool) (count : Int)
    (hsound : cacheSound key n0 cache d)
    (hq : dbGetUnprocessed d cvals order count = []) :
    cacheSound key n0 (markClearEmptyResult cache key ["NP"] cvals true) d := by
  by_cases hC : cvals = []
  · subst hC
    rw [markClear_true_emptyfilters _ _ _ _ (Or.inr rfl)]
    exact hsound
  · intro c stv hlook
    rw [cacheLookup_markClear _ _ _ _ _ (by simp) hC] at hlook
    by_cases hin : c ∈ cvals ∧ stv ∈ ["NP"]
    · have hstv : stv = "NP" := by simpa using hin.2
      refine ⟨fun _ => ?_, fun hne => absurd hstv hne⟩
      exact unproc_single_of_full d cvals order count hq c hin.1
    · rw [if_neg hin] at hlook
      exact hsound c stv hlook

theorem cacheSound_procMark (key : dataSetT) (n0 : Int) (cache : CacheT) (d : DataSet)
    (S C : List String) (lim : Int)
    (hsound : cacheSound key n0 cache d)
    (hNP : S.contains "NP" = false)
    (hq : dbGetProcessed d S C lim n0 = []) :
    cacheSound key n0 (markClearEmptyResult cache key S C true) d := by
  by_cases hC : C = []
  · subst hC
    rw [markClear_true_emptyfilters _ _ _ _ (Or.inr rfl)]
    exact hsound
  · by_cases hS : S = []
    · subst hS
      rw [markClear_true_emptyfilters _ _ _ _ (Or.inl rfl)]
      exact hsound
    · intro c stv hlook
      rw [cacheLookup_markClear _ _ _ _ _ hS hC] at hlook
      by_cases hin : c ∈ C ∧ stv ∈ S
      · have hstv : stv ≠ "NP" := by
          intro he
          subst he
          have hcon : S.contains "NP" = true := by simpa using hin.2
          rw [hNP] at hcon
          exact absurd hcon (by simp)
        refine ⟨fun h => absurd h hstv, fun _ => ?_⟩
        exact proc_single_of_full d S C lim n0 hq c stv hin.1 hin.2
      · rw [if_neg hin] at hlook
        exact hsound c stv hlook

theorem unproc_hit_empty (key : dataSetT) (n0 : Int) (cache : CacheT) (d : DataSet)
    (cvals : List String) (order : Bool) (count : Int)
    (hsound : cacheSound key n0 cache d)
    (hhit : isEmptyResult cache key ["NP"] cvals = true) :
    dbGetUnprocessed d cvals order count = [] := by
  obtain ⟨_, hC, hlk⟩ := isEmptyResult_lookup cache key _ _ hhit
  apply unproc_full_of_singles d cvals order count hC
  intro c hc
  exact (hsound c "NP" (hlk c hc "NP" (List.mem_cons_self _ _))).1 rfl

theorem proc_hit_empty (key : dataSetT) (n0 : Int) (cache : CacheT) (d : DataSet)
    (S C : List String) (lim : Int)
    (hsound : cacheSound key n0 cache d)
    (hNP : S.contains "NP" = false)
    (hhit : isEmptyResult cache key S C = true) :
    dbGetProcessed d S C lim n0 = [] := by
  obtain ⟨hS, hC, hlk⟩ := isEmptyResult_lookup cache key _ _ hhit
  apply proc_full_of_singles d S C lim n0 hS hC
  intro c hc stv hstv
  have hstvNP : stv ≠ "NP" := by
    intro he
    subst he
    have hcon : S.contains "NP" = true := by simpa using hstv
    rw [hNP] at hcon
    exact absurd hcon (by simp)
  exact (hsound c stv (hlk c hc stv hstv)).2 hstvNP

theorem run_cons_congr (key : dataSetT) (op : OpT) (ops : List OpT) (d : DataSet)
    (cache : CacheT) (d2 : DataSet) (cache2 : CacheT) (out : Option OutT)
    (hc : stepCached key d cache op = some (d2, cache2, out))
    (hp : stepPlain d op = some (d2, out))
    (hIH : (runCached key ops d2 cache2).map (fun t => (t.1, t.2.2)) = runPlain ops d2) :
    (runCached key (op :: ops) d cache).map (fun t => (t.1, t.2.2)) =
      runPlain (op :: ops) d := by
  cases hrest : runCached key ops d2 cache2 with
  | none =>
    rw [hrest] at hIH
    have hplain : runPlain ops d2 = none := hIH.symm
    have hL : runCached key (op :: ops) d cache = none := by
      simp only [runCached, hc, hrest]
    have hR : runPlain (op :: ops) d = none := by
      simp only [runPlain, hp, hplain]
    rw [hL, hR]
    rfl
  | some t =>
    obtain ⟨d3, cache3, outs⟩ := t
    rw [hrest] at hIH
    have hplain : runPlain ops d2 = some (d3, outs) := hIH.symm
    have hL : runCached key (op :: ops) d cache = some (d3, cache3, out.toList ++ outs) := by
      simp only [runCached, hc, hrest]
    have hR : runPlain (op :: ops) d = some (d3, out.toList ++ outs) := by
      simp only [runPlain, hp, hplain]
    rw [hL, hR]
    rfl

theorem runs_agree (key : dataSetT) (n0 : Int) :
    ∀ (ops : List OpT) (d : DataSet) (cache : CacheT),
    goodOps d ops = true →
    (∀ op ∈ ops, opNow op = none ∨ opNow op = some n0) →
    stWF d →
    cacheSound key n0 cache d →
    (runCached key ops d cache).map (fun t => (t.1, t.2.2)) = runPlain ops d := by
  intro ops
  induction ops with
  | nil =>
    intro d cache _ _ _ _
    rfl
  | cons op ops ih =>
    intro d cache hg hn hWF hsound
    simp only [goodOps] at hg
    obtain ⟨hg1, hg2⟩ := (Bool.and_eq_true _ _).mp hg
    have hn2 : ∀ o ∈ ops, opNow o = none ∨ opNow o = some n0 :=
      fun o ho => hn o (List.mem_cons_of_mem _ ho)
    cases op with
    | store copyID l =>
      have hcid : copyID = false := by
        simpa [goodOp] using hg1
      subst hcid
      refine run_cons_congr key _ ops d cache (storePlain d false l) (alErase cache key)
        none ?_ ?_ ?_
      · simp only [stepCached, storeJobsDS, markClear_empty_erase]
      · rfl
      · exact ih (storePlain d false l) (alErase cache key) hg2 hn2
          (stWF_storePlain d false l hWF) (cacheSound_erase key n0 cache _)
    | update sl cvals =>
      by_cases hsl : sl = []
      · subst hsl
        refine run_cons_congr key _ ops d cache d cache none ?_ ?_ ?_
        · rfl
        · rfl
        · exact ih d cache hg2 hn2 hWF hsound
      · have hslE : ¬(sl.isEmpty = true) := by
          simpa [List.isEmpty_iff] using hsl
        have hgu : (sl.all (fun s => realJobStates.contains s.jobState)
            && (cvals.isEmpty || sl.all (fun s =>
                 d.jobs.all (fun j => j.jobID != s.jobID || cvals.contains j.customVal)))) =
            true := hg1
        obtain ⟨hstates, hcov0⟩ := (Bool.and_eq_true _ _).mp hgu
        have hstep : updateJobStatusDS key d cache sl cvals =
            (updatePlain d sl,
             markClearEmptyResult cache key (writtenStates sl) cvals false) := by
          rw [updateJobStatusDS, if_neg hslE]
        have hstepD : stepPlainDS d (.update sl cvals) = updatePlain d sl := by
          simp only [stepPlainDS]
          rw [if_neg hslE]
        refine run_cons_congr key _ ops d cache (updatePlain d sl)
          (markClearEmptyResult cache key (writtenStates sl) cvals false) none ?_ ?_ ?_
        · simp only [stepCached, hstep]
        · simp only [stepPlain]
          rw [if_neg hslE]
        · rw [hstepD] at hg2
          refine ih (updatePlain d sl) _ hg2 hn2 (stWF_updatePlain d sl hWF) ?_
          by_cases hC : cvals = []
          · subst hC
            rw [markClear_emptyC_false]
            exact cacheSound_erase key n0 cache _
          · rcases (Bool.or_eq_true _ _).mp hcov0 with hcv | hcov
            · exact absurd (List.isEmpty_iff.mp hcv) hC
            · refine cacheSound_update key n0 cache d sl cvals hWF hsound ?_ hsl hC
              intro s hs j hj hjid
              have ha := (List.all_eq_true.mp hcov) s hs
              have hb := (List.all_eq_true.mp ha) j hj
              rcases (Bool.or_eq_true _ _).mp hb with h' | h'
              · exfalso
                rw [hjid] at h'
                simp at h'
              · exact h'
    | getUnproc cvals order count =>
      by_cases hhit : isEmptyResult cache key ["NP"] cvals = true
      · have hq : dbGetUnprocessed d cvals order count = [] :=
          unproc_hit_empty key n0 cache d cvals order count hsound hhit
        refine run_cons_congr key _ ops d cache d cache (some (.unproc [])) ?_ ?_ ?_
        · simp only [stepCached, getUnprocessedJobsDS]
          rw [if_pos hhit]
        · simp only [stepPlain, hq]
        · exact ih d cache hg2 hn2 hWF hsound
      · refine run_cons_congr key _ ops d cache d
          (if (dbGetUnprocessed d cvals order count).isEmpty then
             markClearEmptyResult cache key ["NP"] cvals true else cache)
          (some (.unproc (dbGetUnprocessed d cvals order count))) ?_ ?_ ?_
        · simp only [stepCached, getUnprocessedJobsDS]
          rw [if_neg hhit]
        · simp only [stepPlain]
        · refine ih d _ hg2 hn2 hWF ?_
          by_cases hqe : (dbGetUnprocessed d cvals order count).isEmpty = true
          · rw [if_pos hqe]
            exact cacheSound_unprocMark key n0 cache d cvals order count hsound
              (List.isEmpty_iff.mp hqe)
          · rw [if_neg hqe]
            exact hsound
    | getProc ga S C lim now =>
      have hnow : now = n0 := by
        rcases hn _ (List.mem_cons_self _ _) with h | h
        · exact absurd h (by simp [opNow])
        · simpa [opNow] using h
      subst hnow
      have hgp : (checkValidJobState S && !(S.contains "NP")
          && (!ga || (C.isEmpty && decide (lim ≤ 0)))) = true := hg1
      obtain ⟨hgp1, hga⟩ := (Bool.and_eq_true _ _).mp hgp
      obtain ⟨hvalid, hnNP⟩ := (Bool.and_eq_true _ _).mp hgp1
      have hNP : S.contains "NP" = false := by simpa using hnNP
      have hval2 : ¬((!checkValidJobState S) = true) := by simp [hvalid]
      cases ga with
      | false =>
        have hga2 : ¬((!C.isEmpty && false) = true) := by simp
        have hga3 : ¬((decide (0 < lim) && false) = true) := by simp
        by_cases hhit : isEmptyResult cache key S C = true
        · have hq : dbGetProcessed d S C lim now = [] :=
            proc_hit_empty key now cache d S C lim hsound hNP hhit
          refine run_cons_congr key _ ops d cache d cache (some (.proc [])) ?_ ?_ ?_
          · have hcached : getProcessedJobsDS key d cache false S C lim now =
                some ([], cache, false) := by
              rw [getProcessedJobsDS, if_neg hval2, if_pos hhit]
            simp only [stepCached, hcached]
          · simp only [stepPlain]
            rw [if_neg hval2, if_neg hga2, if_neg hga3,
              if_neg (by simp : ¬(false = true)), hq]
          · exact ih d cache hg2 hn2 hWF hsound
        · have hcached : getProcessedJobsDS key d cache false S C lim now =
              some (dbGetProcessed d S C lim now,
                if (dbGetProcessed d S C lim now).isEmpty then
                  markClearEmptyResult cache key S C true else cache,
                true) := by
            rw [getProcessedJobsDS, if_neg hval2, if_neg hhit, if_neg hga2, if_neg hga3,
              if_neg (by simp : ¬(false = true))]
          refine run_cons_congr key _ ops d cache d
            (if (dbGetProcessed d S C lim now).isEmpty then
               markClearEmptyResult cache key S C true else cache)
            (some (.proc (dbGetProcessed d S C lim now))) ?_ ?_ ?_
          · simp only [stepCached, hcached]
          · simp only [stepPlain]
            rw [if_neg hval2, if_neg hga2, if_neg hga3,
              if_neg (by simp : ¬(false = true))]
          · refine ih d _ hg2 hn2 hWF ?_
            by_cases hqe : (dbGetProcessed d S C lim now).isEmpty = true
            · rw [if_pos hqe]
              exact cacheSound_procMark key now cache d S C lim hsound hNP
                (List.isEmpty_iff.mp hqe)
            · rw [if_neg hqe]
              exact hsound
      | true =>
        have hga' : C.isEmpty = true ∧ lim ≤ 0 := by simpa using hga
        have hlim : lim ≤ 0 := hga'.2
        have hCnil : C = [] := List.isEmpty_iff.mp hga'.1
        subst hCnil
        have hhit2 : ¬(isEmptyResult cache key S [] = true) := by
          simp [isEmptyResult_emptyC cache key S]
        have hga2 : ¬((!([] : List String).isEmpty && true) = true) := by simp
        have hga3 : ¬((decide (0 < lim) && true) = true) := by
          simp
          omega
        have hcached : getProcessedJobsDS key d cache true S [] lim now =
            some (dbGetProcessedAll d S,
              if (dbGetProcessedAll d S).isEmpty then
                markClearEmptyResult cache key S [] true else cache,
              true) := by
          rw [getProcessedJobsDS, if_neg hval2, if_neg hhit2, if_neg hga2, if_neg hga3,
            if_pos (rfl : true = true)]
        refine run_cons_congr key _ ops d cache d
          (if (dbGetProcessedAll d S).isEmpty then
             markClearEmptyResult cache key S [] true else cache)
          (some (.proc (dbGetProcessedAll d S))) ?_ ?_ ?_
        · simp only [stepCached, hcached]
        · simp only [stepPlain]
          rw [if_neg hval2, if_neg hga2, if_neg hga3]
          simp
        · refine ih d _ hg2 hn2 hWF ?_
          by_cases hqe : (dbGetProcessedAll d S).isEmpty = true
          · rw [if_pos hqe, markClear_true_emptyfilters _ _ _ _ (Or.inr rfl)]
            exact hsound
          · rw [if_neg hqe]
            exact hsound

def c6ops : List OpT :=
  [.store false [exJob 0 "A"],
   .update [exStatus 1 "failed" 10] ["A"],
   .getProc false ["failed"] ["A"] 0 5,
   .getProc false ["failed"] ["A"] 0 20]

def c6goodOps : List OpT :=
  [.store false [exJob 0 "A"],
   .update [exStatus 1 "failed" 10] ["A"],
   .getProc false ["failed"] ["A"] 0 20,
   .getProc false ["failed"] ["A"] 0 20]

/-- C6 (amended): under the caller discipline (stores draw fresh serial
ids, status writes carry only database enum states and pass customVal
filters covering the custom_val of every job they touch or none at all,
reads validate their state filters, exclude the internal NP state and
respect the getAll assertions), and provided every getProcessed read of
the sequence uses one common reference time, running any operation
sequence on a shard with the empty-result cache enabled (starting
empty) produces exactly the same query results and the same final
database state as running it with the cache disabled. -/
theorem cache_refines_plain (key : dataSetT) (ops : List OpT) (d0 : DataSet) (n0 : Int)
    (hg : goodOps d0 ops = true)
    (hn : ∀ op ∈ ops, opNow op = none ∨ opNow op = some n0)
    (hWF : stWF d0) :
    (runCached key ops d0 []).map (fun t => (t.1, t.2.2)) = runPlain ops d0 :=
  runs_agree key n0 ops d0 [] hg hn hWF (cacheSound_nil key n0 d0)

/-- C6 counterexample: a well-disciplined sequence (store one job with
custom_val A, mark it failed with retry_time 10 clearing the (A, failed)
mark, read the failed jobs at time 5, read them again at time 20) gives
different answers with and without the cache: the first read is empty
(retry_time 10 is not below 5) and memoizes emptiness, so the cached
second read returns nothing while the direct query at time 20 returns
the job.  The claimed equivalence fails once the clock advances between
reads. -/
theorem cache_stale_across_clock :
    goodOps emptyDS c6ops = true
    ∧ (runCached exK1 c6ops emptyDS []).map (fun t => t.2.2) ≠
      (runPlain c6ops emptyDS).map (fun t => t.2) := by
  constructor
  · decide
  · decide

/-- Witness for C6: the same operation sequence with both reads at time
20 satisfies the discipline and the single-reference-time hypothesis,
and the equivalence theorem applies to it. -/
theorem cache_refines_plain_witness :
    goodOps emptyDS c6goodOps = true
    ∧ (∀ op ∈ c6goodOps, opNow op = none ∨ opNow op = some 20)
    ∧ stWF emptyDS
    ∧ (runCached exK1 c6goodOps emptyDS []).map (fun t => (t.1, t.2.2)) =
        runPlain c6goodOps emptyDS :=
  ⟨by decide, by decide, ⟨by decide, by decide⟩,
    cache_refines_plain exK1 c6goodOps emptyDS 20 (by decide) (by decide)
      ⟨by decide, by decide⟩⟩

end JobsDB
